import Mathlib

/-!
Verification development for the conversation-log ingestion and normalization
pipeline of the ai-devtools-vscode repository.

The definitions below are a shallow embedding of the TypeScript source:
  * JavaScript strings are modelled by Lean `String`, with the JS string
    operations (`split`, `trim`, `startsWith`, `includes`, `slice`)
    re-implemented structurally over `String.data` so that every definition
    is executable and kernel-reducible;
  * decoded JSON values are modelled by the mutual inductive `Json`
    (`JSON.parse` itself is platform library code, so parsing is threaded
    through the development as an explicit `parse : String → Option Json`
    parameter, `none` modelling a thrown `SyntaxError`);
  * `randomUUID()` is modelled by an explicit generator `gen : Nat → String`
    together with a counter threaded through the conversion state, and
    `new Date().toISOString()` by an explicit `now : String` parameter;
  * the filesystem is modelled by the mutual inductive `FSNode`/`FSEntries`
    (a finite directory tree); paths are segment lists.

Total Lean functions model the TypeScript contract that the corresponding
operations never throw: every outcome of a fallible operation is a normal
return value (`Option`, or a dedicated error constructor).
-/

/-! ## JavaScript-style string primitives (structural, kernel-reducible) -/

/-- JS `String.prototype.split` with a single-character separator. -/
def splitCharAux (c : Char) : List Char → List Char → List String
  | [], acc => [String.mk acc.reverse]
  | x :: xs, acc =>
    if x = c then String.mk acc.reverse :: splitCharAux c xs []
    else splitCharAux c xs (x :: acc)

/-- `content.split('\n')`. -/
def jsSplitNl (s : String) : List String :=
  splitCharAux '\n' s.data []

/-- JS `String.prototype.trim` (whitespace from both ends). -/
def jsTrim (s : String) : String :=
  String.mk (((s.data.dropWhile Char.isWhitespace).reverse.dropWhile Char.isWhitespace).reverse)

/-- JS `String.prototype.startsWith`. -/
def strStartsWith (s pre : String) : Bool :=
  pre.data.isPrefixOf s.data

/-- JS `String.prototype.endsWith`. -/
def strEndsWith (s suf : String) : Bool :=
  suf.data.isSuffixOf s.data

/-- Auxiliary for `strContains`: does `sub` occur inside `l`? -/
def listContainsSub (sub : List Char) : List Char → Bool
  | [] => sub.isEmpty
  | x :: xs => sub.isPrefixOf (x :: xs) || listContainsSub sub xs

/-- JS `String.prototype.includes`. -/
def strContains (s sub : String) : Bool :=
  listContainsSub sub.data s.data

/-- JS `String.prototype.slice(0, n)` (modelled on characters). -/
def strTake (s : String) (n : Nat) : String :=
  String.mk (s.data.take n)

/-- JS `Array.prototype.join(sep)`. -/
def joinSep (sep : String) : List String → String
  | [] => ""
  | [x] => x
  | x :: y :: xs => x ++ sep ++ joinSep sep (y :: xs)

/-- Collapse every maximal run of characters satisfying `p` into the single
character `r` (the flag records whether the previous character was in a run).
Models a JS `replace(/X+/g, r)` for a character class `X`. -/
def collapseRunsAux (p : Char → Bool) (r : Char) : Bool → List Char → List Char
  | _, [] => []
  | inRun, c :: cs =>
    if p c then
      if inRun then collapseRunsAux p r true cs
      else r :: collapseRunsAux p r true cs
    else c :: collapseRunsAux p r false cs

/-- `text.replace(/\n+/g, ' ')`. -/
def collapseNewlines (s : String) : String :=
  String.mk (collapseRunsAux (fun c => c = '\n') ' ' false s.data)

/-- `text.replace(/\s+/g, ' ')`. -/
def collapseWhitespace (s : String) : String :=
  String.mk (collapseRunsAux Char.isWhitespace ' ' false s.data)

/-! ## Decoded JSON values -/

mutual

/-- A decoded JSON value (the result of a successful `JSON.parse`). -/
inductive Json where
  | null
  | bool (b : Bool)
  | num (n : Int)
  | str (s : String)
  | arr (elems : JsonA)
  | obj (fields : JsonO)
deriving DecidableEq

/-- A JSON array (spine of `Json` values). -/
inductive JsonA where
  | nil
  | cons (hd : Json) (tl : JsonA)
deriving DecidableEq

/-- JSON object fields, in insertion order (JS objects preserve it). -/
inductive JsonO where
  | nil
  | cons (key : String) (val : Json) (tl : JsonO)
deriving DecidableEq

end

/-- Build a JSON array from a list. -/
def JsonA.ofList : List Json → JsonA
  | [] => .nil
  | x :: xs => .cons x (JsonA.ofList xs)

/-- Build JSON object fields from a list of key/value pairs. -/
def JsonO.ofList : List (String × Json) → JsonO
  | [] => .nil
  | p :: ps => .cons p.1 p.2 (JsonO.ofList ps)

/-- First field with the given key, if any. -/
def JsonO.findKey : JsonO → String → Option Json
  | .nil, _ => none
  | .cons k v t, key => if k = key then some v else JsonO.findKey t key

/-- Set a field: replace the first occurrence in place, else append
(JS property-assignment / object-spread override semantics). -/
def JsonO.setField : JsonO → String → Json → JsonO
  | .nil, k, v => .cons k v .nil
  | .cons k' v' t, k, v =>
    if k' = k then .cons k' v t else .cons k' v' (JsonO.setField t k v)

/-- JS property read `value.key` on a decoded value: objects answer their
fields, everything else (including arrays, for the names used here) yields
`undefined`, modelled as `none`. -/
def Json.getField : Json → String → Option Json
  | .obj fs, k => fs.findKey k
  | _, _ => none

/-- `isRecord` from the source: `typeof value === 'object' && value !== null`.
JS arrays satisfy this test as well. -/
def Json.isRec : Json → Bool
  | .obj _ => true
  | .arr _ => true
  | _ => false

/-- `getString(value)`: the value itself when it is a string, else `undefined`. -/
def Json.asString : Json → Option String
  | .str s => some s
  | _ => none

/-- `getNumber(value)`. -/
def Json.asNumber : Json → Option Int
  | .num n => some n
  | _ => none

/-- `getBoolean(value)`. -/
def Json.asBoolean : Json → Option Bool
  | .bool b => some b
  | _ => none

/-- `getString(x.k)` for a field read. -/
def Json.getStr (j : Json) (k : String) : Option String :=
  (j.getField k).bind Json.asString

/-- `getNumber(x.k)` for a field read. -/
def Json.getNum (j : Json) (k : String) : Option Int :=
  (j.getField k).bind Json.asNumber

/-- `getBoolean(x.k)` for a field read. -/
def Json.getBool (j : Json) (k : String) : Option Bool :=
  (j.getField k).bind Json.asBoolean

/-- `asRecord(value)` composed with an optional read:
keeps the value only when `isRecord` holds. -/
def asRecO : Option Json → Option Json
  | some j => if j.isRec then some j else none
  | none => none

/-- JS truthiness on an optional string: `undefined` and `""` are falsy. -/
def truthyStr : Option String → Option String
  | some s => if s = "" then none else some s
  | none => none

/-- JS nullish coalescing `a ?? b` on decoded values:
`null` and `undefined` fall through to `b`. -/
def nullish : Option Json → Option Json → Option Json
  | some .null, b => b
  | none, b => b
  | some v, _ => some v

/-- `entry.parentUuid ?? null`. -/
def nullishNull : Option Json → Json
  | some .null => .null
  | none => .null
  | some v => v

/-- Object-spread override `{...j, kvs}` (only meaningful on objects;
the source only spreads records). -/
def Json.extendObj (j : Json) (kvs : List (String × Json)) : Json :=
  match j with
  | .obj fs => .obj (kvs.foldl (fun acc p => acc.setField p.1 p.2) fs)
  | other => other

mutual

/-- A model of `JSON.stringify` (compact form; string escaping and the
pretty-printing indent of `JSON.stringify(x, null, 2)` are not modelled,
no theorem below depends on the serialized text). -/
def Json.stringify : Json → String
  | .null => "null"
  | .bool b => if b then "true" else "false"
  | .num n => toString n
  | .str s => "\"" ++ s ++ "\""
  | .arr xs => "[" ++ JsonA.stringifyElems xs ++ "]"
  | .obj fs => "\x7b" ++ JsonO.stringifyFields fs ++ "\x7d"

/-- Serialize array elements, comma-separated. -/
def JsonA.stringifyElems : JsonA → String
  | .nil => ""
  | .cons h .nil => Json.stringify h
  | .cons h t => Json.stringify h ++ "," ++ JsonA.stringifyElems t

/-- Serialize object fields, comma-separated. -/
def JsonO.stringifyFields : JsonO → String
  | .nil => ""
  | .cons k v .nil => "\"" ++ k ++ "\":" ++ Json.stringify v
  | .cons k v t => "\"" ++ k ++ "\":" ++ Json.stringify v ++ "," ++ JsonO.stringifyFields t

end

example : jsSplitNl "a\nb" = ["a", "b"] := by decide
example : jsTrim "  hi\n" = "hi" := by decide
example : strContains "xx tool_use_id yy" "tool_use_id" = true := by decide
example : collapseWhitespace (collapseNewlines "a\n\nb  c") = "a b c" := by decide
example : (Json.obj (JsonO.ofList [("a", .num 3)])).getNum "a" = some 3 := by decide
example : joinSep ". " ["a", "b", "c"] = "a. b. c" := by decide

/-! ## Entry Schema & Validator
Embedding of `src/webview/lib/conversation-schema.ts` (normalization
pre-pass and union), `entry/SystemEntrySchema.ts` and
`entry/FileHistorySnapshotEntrySchema.ts`. The remaining variant schemas
(`BaseEntrySchema`, `UserEntrySchema`, `AssistantEntrySchema`,
`SummaryEntrySchema`, `QueueOperationEntrySchema` and the content schemas)
are not under the provided sources and are modelled from the spec where
noted. -/

namespace ConversationSchema

/-- `SYSTEM_LEVELS` from conversation-schema.ts. -/
def SYSTEM_LEVELS : List String := ["info", "suggestion", "warning", "error"]

/-- Collect `info.command` strings from `entry.hookInfos`. -/
def hookCommandsOf : JsonA → List String
  | .nil => []
  | .cons h t =>
    (match h.getStr "command" with
     | some c => [c]
     | none => []) ++ hookCommandsOf t

/-- `getHookCommands` from conversation-schema.ts. -/
def getHookCommands (entry : Json) : List String :=
  match entry.getField "hookInfos" with
  | some (.arr items) => hookCommandsOf items
  | _ => []

/-- `buildStopHookSummaryContent` from conversation-schema.ts. -/
def buildStopHookSummaryContent (entry : Json) : String :=
  let commands := getHookCommands entry
  let parts : List String :=
    ["Stop hook summary"]
    ++ (match entry.getNum "hookCount" with
        | some n => [toString n ++ " hook(s) executed"]
        | none => [])
    ++ (if commands.isEmpty then [] else ["Commands: " ++ joinSep ", " commands])
    ++ (match entry.getBool "preventedContinuation" with
        | some b => ["Prevented continuation: " ++ (if b then "yes" else "no")]
        | none => [])
    ++ (match entry.getStr "stopReason" with
        | some s => if s ≠ "" ∧ (jsTrim s).length > 0 then ["Reason: " ++ s] else []
        | none => [])
  joinSep ". " parts

/-- `buildHookProgressContent` from conversation-schema.ts
(the `if (x)` guards use JS truthiness: empty strings are skipped). -/
def buildHookProgressContent (data : Json) : String :=
  let parts : List String :=
    ["Hook progress"]
    ++ (match truthyStr (data.getStr "hookEvent") with
        | some s => ["Event: " ++ s]
        | none => [])
    ++ (match truthyStr (data.getStr "hookName") with
        | some s => ["Hook: " ++ s]
        | none => [])
    ++ (match truthyStr (data.getStr "command") with
        | some s => ["Command: " ++ s]
        | none => [])
  joinSep ". " parts

/-- `buildBashProgressContent` from conversation-schema.ts. -/
def buildBashProgressContent (data : Json) : String :=
  let parts : List String :=
    ["Bash progress"]
    ++ (match data.getNum "elapsedTimeSeconds" with
        | some n => ["Elapsed: " ++ toString n ++ "s"]
        | none => [])
    ++ (match data.getNum "totalLines" with
        | some n => ["Lines: " ++ toString n]
        | none => [])
    ++ (match data.getStr "output" with
        | some s => if s ≠ "" ∧ (jsTrim s).length > 0 then ["Output: " ++ s] else []
        | none => [])
  joinSep ". " parts

/-- `normalizeProgressEntry` from conversation-schema.ts: rewrites a legacy
`progress` record into a `system`-shaped record with synthesized content. -/
def normalizeProgressEntry (entry : Json) : Json :=
  if entry.getField "type" = some (.str "progress") then
    let data := match entry.getField "data" with
      | some d => if d.isRec then d else Json.obj .nil
      | none => Json.obj .nil
    let dataType := data.getStr "type"
    let content :=
      if dataType = some "hook_progress" then buildHookProgressContent data
      else if dataType = some "bash_progress" then buildBashProgressContent data
      else "Progress update"
    entry.extendObj
      [("type", .str "system"),
       ("content", .str content),
       ("toolUseID", .str (((entry.getStr "toolUseID").orElse
          (fun _ => entry.getStr "parentToolUseID")).getD "progress-update")),
       ("level", .str "info"),
       ("parentUuid", nullishNull (entry.getField "parentUuid"))]
  else entry

/-- `normalizeSystemEntry` from conversation-schema.ts: defaults the level,
the tool-use id, missing content (with the `stop_hook_summary` formatter)
and the parent link of `system` records. -/
def normalizeSystemEntry (entry : Json) : Json :=
  if entry.getField "type" = some (.str "system") then
    let level := entry.getStr "level"
    let e1 := entry.extendObj
      [("level", .str (match truthyStr level with
        | some l => if SYSTEM_LEVELS.contains l then l else "info"
        | none => "info"))]
    let e2 :=
      if truthyStr (e1.getStr "toolUseID") = none then
        e1.extendObj [("toolUseID", .str ((e1.getStr "parentToolUseID").getD "system"))]
      else e1
    let e3 :=
      if truthyStr (e2.getStr "content") = none then
        let subtype := e2.getStr "subtype"
        e2.extendObj [("content", .str
          (match subtype with
           | some st =>
             if st = "stop_hook_summary" then buildStopHookSummaryContent e2
             else if st ≠ "" then "System event: " ++ st
             else "System event"
           | none => "System event"))]
      else e2
    e3.extendObj [("parentUuid", nullishNull (e3.getField "parentUuid"))]
  else entry

/-- `normalizeConversationEntry`: the `z.preprocess` normalization pre-pass. -/
def normalizeConversationEntry (entry : Json) : Json :=
  if entry.isRec then normalizeSystemEntry (normalizeProgressEntry entry)
  else entry

/-- Common fields of every non-error entry variant.
Modelled from the spec: `BaseEntrySchema` is not under the provided
sources; §3 lists the common fields, which are modelled as tolerant
optional fields (`parentUuid` additionally accepts JSON `null`,
conflated with absence as `none`). -/
structure BaseEntryFields where
  parentUuid : Option String := none
  isSidechain : Option Bool := none
  userType : Option String := none
  cwd : Option String := none
  sessionId : Option String := none
  version : Option String := none
  uuid : Option String := none
  timestamp : Option String := none
  isMeta : Option Bool := none
  agentId : Option String := none
deriving DecidableEq

/-- An optional string field: absent is fine, present must be a string. -/
def optStrField (j : Json) (k : String) : Option (Option String) :=
  match j.getField k with
  | none => some none
  | some (.str s) => some (some s)
  | some _ => none

/-- An optional boolean field. -/
def optBoolField (j : Json) (k : String) : Option (Option Bool) :=
  match j.getField k with
  | none => some none
  | some (.bool b) => some (some b)
  | some _ => none

/-- A nullable optional string field (used for the parent link). -/
def nullableStrField (j : Json) (k : String) : Option (Option String) :=
  match j.getField k with
  | none => some none
  | some .null => some none
  | some (.str s) => some (some s)
  | some _ => none

/-- Modelled from the spec: validation of the common base fields (§3). -/
def parseBaseEntry (j : Json) : Option BaseEntryFields := do
  let parentUuid ← nullableStrField j "parentUuid"
  let isSidechain ← optBoolField j "isSidechain"
  let userType ← optStrField j "userType"
  let cwd ← optStrField j "cwd"
  let sessionId ← optStrField j "sessionId"
  let version ← optStrField j "version"
  let uuid ← optStrField j "uuid"
  let timestamp ← optStrField j "timestamp"
  let isMeta ← optBoolField j "isMeta"
  let agentId ← optStrField j "agentId"
  pure { parentUuid, isSidechain, userType, cwd, sessionId, version, uuid,
         timestamp, isMeta, agentId }

/-- A text or image item inside a tool-result content array. -/
inductive TRItem where
  | text (t : String)
  | image
deriving DecidableEq

/-- Tool-result payload: a plain string or an array of text/image items. -/
inductive TRContent where
  | str (s : String)
  | items (l : List TRItem)
deriving DecidableEq

/-- A validated tool-result content item. -/
structure ToolResultContent where
  tool_use_id : String
  content : TRContent
  is_error : Option Bool := none
deriving DecidableEq

/-- A validated content item of a user message. -/
inductive UserContentItem where
  | text (t : String)
  | image
  | document
  | toolResult (r : ToolResultContent)
deriving DecidableEq

/-- A validated content item of an assistant message. -/
inductive AssistantContentItem where
  | text (t : String)
  | thinking (t : String)
  | toolUse (id : String) (name : String) (input : Json)
  | toolResult (r : ToolResultContent)
deriving DecidableEq

/-- A validated user message: a plain string or an item array. -/
structure UserMessage where
  content : Sum String (List UserContentItem)
deriving DecidableEq

/-- A validated assistant message (content is always an item array). -/
structure AssistantMessage where
  content : List AssistantContentItem
deriving DecidableEq

/-- `FileBackupEntrySchema` from FileHistorySnapshotEntrySchema.ts. -/
structure FileBackupEntry where
  backupFileName : Option String
  version : Int
  backupTime : String
deriving DecidableEq

/-- The validated `snapshot` object of a file-history-snapshot entry. -/
structure SnapshotData where
  messageId : String
  trackedFileBackups : List (String × FileBackupEntry)
  timestamp : String
deriving DecidableEq

/-- The canonical discriminated-union entry model (output of validation). -/
inductive Conversation where
  | user (base : BaseEntryFields) (message : UserMessage)
  | assistant (base : BaseEntryFields) (message : AssistantMessage)
  | summary (summary : String) (leafUuid : Option String)
  | system (base : BaseEntryFields) (content : String) (toolUseID : String) (level : String)
  | fileHistorySnapshot (messageId : String) (snapshot : SnapshotData) (isSnapshotUpdate : Bool)
  | queueOperation (operation : String) (sessionId : String) (timestamp : String)
deriving DecidableEq

/-- Modelled from the spec: tool-result content validation
(`ToolResultContentSchema` is not under the provided sources; §3 describes
the payload as a string or text/image items). -/
def parseTRContentItems : JsonA → Option (List TRItem)
  | .nil => some []
  | .cons h t => do
    let item ←
      match h.getField "type" with
      | some (.str "text") =>
        match h.getField "text" with
        | some (.str s) => some (TRItem.text s)
        | _ => none
      | some (.str "image") => some TRItem.image
      | _ => none
    let rest ← parseTRContentItems t
    pure (item :: rest)

/-- Modelled from the spec: the `content` of a tool result. -/
def parseTRContent (j : Json) : Option TRContent :=
  match j with
  | .str s => some (.str s)
  | .arr items => (parseTRContentItems items).map TRContent.items
  | _ => none

/-- Modelled from the spec: a tool-result content item (§3: correlates to an
invocation id, optionally flagged as an error result). -/
def parseToolResultItem (j : Json) : Option ToolResultContent := do
  let id ←
    match j.getField "tool_use_id" with
    | some (.str s) => some s
    | _ => none
  let content ← (j.getField "content").bind parseTRContent
  let isErr ← optBoolField j "is_error"
  pure { tool_use_id := id, content := content, is_error := isErr }

/-- Modelled from the spec: one content item of a user message. -/
def parseUserContentItem (j : Json) : Option UserContentItem :=
  match j.getField "type" with
  | some (.str "text") =>
    match j.getField "text" with
    | some (.str s) => some (.text s)
    | _ => none
  | some (.str "image") => some .image
  | some (.str "document") => some .document
  | some (.str "tool_result") => (parseToolResultItem j).map .toolResult
  | _ => none

/-- Traverse a JSON array of user content items. -/
def parseUserContentItems : JsonA → Option (List UserContentItem)
  | .nil => some []
  | .cons h t => do
    let item ← parseUserContentItem h
    let rest ← parseUserContentItems t
    pure (item :: rest)

/-- Modelled from the spec: one content item of an assistant message. -/
def parseAssistantContentItem (j : Json) : Option AssistantContentItem :=
  match j.getField "type" with
  | some (.str "text") =>
    match j.getField "text" with
    | some (.str s) => some (.text s)
    | _ => none
  | some (.str "thinking") =>
    match j.getField "thinking" with
    | some (.str s) => some (.thinking s)
    | _ => none
  | some (.str "tool_use") => do
    let id ←
      match j.getField "id" with
      | some (.str s) => some s
      | _ => none
    let name ←
      match j.getField "name" with
      | some (.str s) => some s
      | _ => none
    let input ←
      match j.getField "input" with
      | some v => if v.isRec then some v else none
      | none => none
    pure (.toolUse id name input)
  | some (.str "tool_result") => (parseToolResultItem j).map .toolResult
  | _ => none

/-- Traverse a JSON array of assistant content items. -/
def parseAssistantContentItems : JsonA → Option (List AssistantContentItem)
  | .nil => some []
  | .cons h t => do
    let item ← parseAssistantContentItem h
    let rest ← parseAssistantContentItems t
    pure (item :: rest)

/-- Modelled from the spec: `UserEntrySchema` (discriminator `user`,
message with role `user` and string-or-items content). -/
def parseUserEntry (j : Json) : Option Conversation := do
  if j.getField "type" = some (.str "user") then
    let base ← parseBaseEntry j
    let msg ←
      match j.getField "message" with
      | some m =>
        if m.getField "role" = some (.str "user") then
          match m.getField "content" with
          | some (.str s) => some { content := Sum.inl s : UserMessage }
          | some (.arr items) =>
            (parseUserContentItems items).map (fun l => { content := Sum.inr l })
          | _ => none
        else none
      | none => none
    pure (.user base msg)
  else none

/-- Modelled from the spec: `AssistantEntrySchema` (discriminator
`assistant`, message with role `assistant` and an item-array content). -/
def parseAssistantEntry (j : Json) : Option Conversation := do
  if j.getField "type" = some (.str "assistant") then
    let base ← parseBaseEntry j
    let msg ←
      match j.getField "message" with
      | some m =>
        if m.getField "role" = some (.str "assistant") then
          match m.getField "content" with
          | some (.arr items) =>
            (parseAssistantContentItems items).map (fun l => { content := l })
          | _ => none
        else none
      | none => none
    pure (.assistant base msg)
  else none

/-- Modelled from the spec: `SummaryEntrySchema` (discriminator `summary`
with a string summary and an optional leaf link). -/
def parseSummaryEntry (j : Json) : Option Conversation := do
  if j.getField "type" = some (.str "summary") then
    let s ←
      match j.getField "summary" with
      | some (.str s) => some s
      | _ => none
    let leaf ← optStrField j "leafUuid"
    pure (.summary s leaf)
  else none

/-- `SystemEntrySchema` from entry/SystemEntrySchema.ts: base fields plus
required string content, string tool-use id and an enumerated level. -/
def parseSystemEntry (j : Json) : Option Conversation := do
  if j.getField "type" = some (.str "system") then
    let base ← parseBaseEntry j
    let content ←
      match j.getField "content" with
      | some (.str s) => some s
      | _ => none
    let toolUseID ←
      match j.getField "toolUseID" with
      | some (.str s) => some s
      | _ => none
    let level ←
      match j.getField "level" with
      | some (.str s) => if SYSTEM_LEVELS.contains s then some s else none
      | _ => none
    pure (.system base content toolUseID level)
  else none

/-- Validate one `trackedFileBackups` value. -/
def parseFileBackupEntry (j : Json) : Option FileBackupEntry := do
  let name ← nullableStrField j "backupFileName"
  let version ←
    match j.getField "version" with
    | some (.num n) => some n
    | _ => none
  let time ←
    match j.getField "backupTime" with
    | some (.str s) => some s
    | _ => none
  pure { backupFileName := name, version := version, backupTime := time }

/-- Validate the `trackedFileBackups` record (`z.record`). -/
def parseTrackedBackups : JsonO → Option (List (String × FileBackupEntry))
  | .nil => some []
  | .cons k v t => do
    let e ← parseFileBackupEntry v
    let rest ← parseTrackedBackups t
    pure ((k, e) :: rest)

/-- `FileHistorySnapshotEntrySchema` from
entry/FileHistorySnapshotEntrySchema.ts. -/
def parseFileHistorySnapshotEntry (j : Json) : Option Conversation := do
  if j.getField "type" = some (.str "file-history-snapshot") then
    let messageId ←
      match j.getField "messageId" with
      | some (.str s) => some s
      | _ => none
    let snap ←
      match j.getField "snapshot" with
      | some s => do
        let mid ←
          match s.getField "messageId" with
          | some (.str m) => some m
          | _ => none
        let backups ←
          match s.getField "trackedFileBackups" with
          | some (.obj fields) => parseTrackedBackups fields
          | _ => none
        let ts ←
          match s.getField "timestamp" with
          | some (.str t) => some t
          | _ => none
        pure { messageId := mid, trackedFileBackups := backups, timestamp := ts : SnapshotData }
      | none => none
    let isUpd ←
      match j.getField "isSnapshotUpdate" with
      | some (.bool b) => some b
      | _ => none
    pure (.fileHistorySnapshot messageId snap isUpd)
  else none

/-- Modelled from the spec: `QueueOperationEntrySchema` (discriminator
`queue-operation`; the export collaborators read `operation`, `sessionId`
and `timestamp`). -/
def parseQueueOperationEntry (j : Json) : Option Conversation := do
  if j.getField "type" = some (.str "queue-operation") then
    let op ←
      match j.getField "operation" with
      | some (.str s) => some s
      | _ => none
    let sid ←
      match j.getField "sessionId" with
      | some (.str s) => some s
      | _ => none
    let ts ←
      match j.getField "timestamp" with
      | some (.str s) => some s
      | _ => none
    pure (.queueOperation op sid ts)
  else none

/-- `ConversationSchema`: the normalization pre-pass followed by the ordered
union over the declared entry variants (`z.union` returns the first
successful variant). `none` models a failed `safeParse`. -/
def conversationSchemaParse (v : Json) : Option Conversation :=
  let e := normalizeConversationEntry v
  (parseUserEntry e).orElse fun _ =>
  (parseAssistantEntry e).orElse fun _ =>
  (parseSummaryEntry e).orElse fun _ =>
  (parseSystemEntry e).orElse fun _ =>
  (parseFileHistorySnapshotEntry e).orElse fun _ =>
  parseQueueOperationEntry e

end ConversationSchema

example :
    (ConversationSchema.normalizeProgressEntry
      (Json.obj (JsonO.ofList [("type", .str "progress"),
        ("data", Json.obj (JsonO.ofList [("type", .str "bash_progress"),
          ("elapsedTimeSeconds", .num 3), ("totalLines", .num 10)]))]))).getStr
      "content" = some "Bash progress. Elapsed: 3s. Lines: 10" := by decide

/-! ## Per-line validation
Embedding of `parseJsonlContent` from
`src/webview/components/custom-ui/ConversationViewer.tsx` and the
`ErrorJsonl` error variant from conversation-schema.ts. -/

namespace Viewer

open ConversationSchema

/-- One outcome per input line: a validated entry, or the error variant
`{ type: "x-error", line }` carrying the original line text. -/
inductive ParsedLine where
  | entry (c : Conversation)
  | xError (line : String)
deriving DecidableEq

/-- The body of the `lines.map` closure in `parseJsonlContent`:
`JSON.parse` failure (modelled by `parse line = none`) and `safeParse`
failure both produce the error variant; both produce a normal value, the
`try`/`catch` guarantees nothing is thrown. -/
def parseJsonlLine (parse : String → Option Json) (line : String) : ParsedLine :=
  match parse line with
  | none => .xError line
  | some v =>
    match conversationSchemaParse v with
    | some c => .entry c
    | none => .xError line

/-- `parseJsonlContent`: split into lines, keep the non-blank ones
(`filter(line => line.trim())`), validate each. -/
def parseJsonlContent (parse : String → Option Json) (content : String) : List ParsedLine :=
  ((jsSplitNl content).filter (fun l => jsTrim l ≠ "")).map (parseJsonlLine parse)

end Viewer

/-! ## Tool Correlator
Embedding of `buildToolResultMap` from `src/webview/lib/export-utils.ts`
(the second provided copy of format-utils), plus JS `Map` semantics. -/

/-- JS `Map.prototype.set`: replace the first binding in place, else append
(JS maps preserve insertion order of keys). -/
def jsMapSet {β : Type} (m : List (String × β)) (k : String) (v : β) : List (String × β) :=
  match m with
  | [] => [(k, v)]
  | e :: rest => if e.1 = k then (k, v) :: rest else e :: jsMapSet rest k v

/-- JS `Map.prototype.get`. -/
def jsMapGet {β : Type} (m : List (String × β)) (k : String) : Option β :=
  match m with
  | [] => none
  | e :: rest => if e.1 = k then some e.2 else jsMapGet rest k

namespace ExportUtils

open ConversationSchema Viewer

/-- The `{ toolName, result }` value stored in the tool-result map. -/
structure ToolResultInfo where
  toolName : String
  result : ToolResultContent
deriving DecidableEq

/-- The `tool_use` items of one assistant message, as id/name pairs,
in content order. -/
def toolUsePairs (items : List AssistantContentItem) : List (String × String) :=
  items.filterMap fun item =>
    match item with
    | .toolUse id name _ => some (id, name)
    | _ => none

/-- The `tool_result` items of one user message, in content order. -/
def toolResultItems (m : UserMessage) : List ToolResultContent :=
  match m.content with
  | .inl _ => []
  | .inr items =>
    items.filterMap fun item =>
      match item with
      | .toolResult r => some r
      | _ => none

/-- First pass of `buildToolResultMap`: collect invocation id → name from
every assistant entry's tool-invocation content items. -/
def collectToolNames (convs : List ParsedLine) : List (String × String) :=
  convs.foldl
    (fun m conv =>
      match conv with
      | .entry (.assistant _ msg) =>
        (toolUsePairs msg.content).foldl (fun m p => jsMapSet m p.1 p.2) m
      | _ => m)
    []

/-- `buildToolResultMap`: two passes; the second pass collects tool-result
content items from user entries and attaches the pass-one name, with
`toolNames.get(id) || "unknown"` (JS truthiness: a missing binding and an
empty recorded name both fall back to the sentinel). -/
def buildToolResultMap (convs : List ParsedLine) : List (String × ToolResultInfo) :=
  let toolNames := collectToolNames convs
  convs.foldl
    (fun m conv =>
      match conv with
      | .entry (.user _ msg) =>
        (toolResultItems msg).foldl
          (fun m r =>
            jsMapSet m r.tool_use_id
              { toolName :=
                  match jsMapGet toolNames r.tool_use_id with
                  | some n => if n = "" then "unknown" else n
                  | none => "unknown",
                result := r })
          m
      | _ => m)
    []

/-- Declarative reading of pass one: every id/name pair recorded by any
assistant entry's tool-invocation items, in sequence order. -/
def invocationPairs (convs : List ParsedLine) : List (String × String) :=
  convs.flatMap fun conv =>
    match conv with
    | .entry (.assistant _ msg) => toolUsePairs msg.content
    | _ => []

/-- The names recorded for a given invocation id, in sequence order. -/
def invocationNamesIn (convs : List ParsedLine) (id : String) : List String :=
  ((invocationPairs convs).filter (fun p => p.1 = id)).map (fun p => p.2)

/-- Declarative reading of pass two: every tool-result item of any user
entry, in sequence order. -/
def allToolResults (convs : List ParsedLine) : List ToolResultContent :=
  convs.flatMap fun conv =>
    match conv with
    | .entry (.user _ msg) => toolResultItems msg
    | _ => []

/-- The tool-result items referencing a given invocation id, in order. -/
def toolResultsIn (convs : List ParsedLine) (id : String) : List ToolResultContent :=
  (allToolResults convs).filter (fun r => r.tool_use_id = id)

/-- The truthy name resolution `toolNames.get(id) || "unknown"`, applied to
the last recorded name for the id. -/
def resolveName : Option String → String
  | some n => if n = "" then "unknown" else n
  | none => "unknown"

end ExportUtils

/-! ## Foreign-Format Converter, Preview Extractor and Store Scanner
Embedding of the conversationStore module (provided as an unnamed source
file; it is the module `SidebarViewProvider.ts` imports as `./fileSystem`).
`randomUUID()` is modelled by `gen : Nat → String` applied to a counter
threaded through the conversion; `new Date().toISOString()` by `now`. -/

namespace Store

/-- `MIN_FILE_SIZE` (1 KB minimum). -/
def MIN_FILE_SIZE : Nat := 1 * 1024

/-- `MAX_FILE_SIZE_FOR_FULL_READ` (50 MB). -/
def MAX_FILE_SIZE_FOR_FULL_READ : Nat := 50 * 1024 * 1024

/-- `SUMMARY_CHUNK_SIZE` (50 KB). -/
def SUMMARY_CHUNK_SIZE : Nat := 50 * 1024

/-- `CODEX_SUMMARY_CHUNK_SIZE` (200 KB). -/
def CODEX_SUMMARY_CHUNK_SIZE : Nat := 200 * 1024

/-- `CODEX_UNKNOWN_FOLDER`. -/
def CODEX_UNKNOWN_FOLDER : String := "__codex_unknown__"

/-- `normalizeSummaryCandidate`:
`text.replace(/\n+/g, ' ').replace(/\s+/g, ' ').trim()`. -/
def normalizeSummaryCandidate (text : String) : String :=
  jsTrim (collapseWhitespace (collapseNewlines text))

/-- The `metaPrefixes` list of `isMetaConversationText`. -/
def metaPrefixes : List String :=
  ["<command",
   "<environment_context",
   "<permissions instructions>",
   "<user_instructions>",
   "<INSTRUCTIONS>",
   "<collaboration_mode>",
   "<app-context>",
   "<turn_aborted>",
   "<ide_opened_file>",
   "<local-",
   "[Tool Result]",
   "Caveat:"]

/-- `isMetaConversationText`: the meta-content heuristic
(boilerplate prefixes, the AGENTS banner, tool-result echoes). -/
def isMetaConversationText (text : String) : Bool :=
  let trimmed := jsTrim text
  if trimmed = "" then true
  else if metaPrefixes.any (fun p => strStartsWith trimmed p) then true
  else if strStartsWith trimmed "# AGENTS" then true
  else if strContains trimmed "tool_use_id" then true
  else false

/-- `extractClaudeSummaryCandidate`: the string body or first text block of
a native-schema `user` entry. -/
def firstTextBlock : JsonA → Option String
  | .nil => none
  | .cons b t =>
    match b.getField "type", b.getField "text" with
    | some (.str "text"), some (.str s) => some s
    | _, _ => firstTextBlock t

/-- `extractClaudeSummaryCandidate` from the conversationStore module. -/
def extractClaudeSummaryCandidate (entry : Json) : Option String :=
  if entry.getField "type" = some (.str "user") then
    match asRecO (entry.getField "message") with
    | some message =>
      match message.getField "content" with
      | some (.str s) => some s
      | some (.arr blocks) => firstTextBlock blocks
      | _ => none
    | none => none
  else none

/-- The per-block text extraction of `extractCodexMessageText`
(`input_text`/`output_text` blocks and image markers, in order). -/
def codexTextParts : JsonA → List String
  | .nil => []
  | .cons b t =>
    (match truthyStr (b.getStr "type") with
     | some bt =>
       if (bt = "input_text" ∨ bt = "output_text") then
         match b.getField "text" with
         | some (.str s) => [s]
         | _ => []
       else if bt = "input_image" then
         match (b.getStr "image_url").orElse (fun _ => b.getStr "url") with
         | some u => ["[Image] " ++ u]
         | none => ["[Image]"]
       else []
     | none => []) ++ codexTextParts t

/-- `extractCodexMessageText`: join the textual parts with blank lines. -/
def extractCodexMessageText (content : Option Json) : String :=
  match content with
  | some (.arr blocks) => jsTrim (joinSep "\n\n" (codexTextParts blocks))
  | _ => ""

/-- `extractCodexSummaryCandidates`: the user-authored texts offered by one
foreign-schema record. -/
def extractCodexSummaryCandidates (entry : Json) : List String :=
  if entry.getField "type" = some (.str "response_item") then
    match asRecO (entry.getField "payload") with
    | some payload =>
      if payload.getField "type" = some (.str "message") ∧
         payload.getField "role" = some (.str "user") then
        let text := extractCodexMessageText (payload.getField "content")
        if text ≠ "" then [text] else []
      else []
    | none => []
  else if entry.getField "type" = some (.str "message") ∧
          entry.getField "role" = some (.str "user") then
    let text := extractCodexMessageText (entry.getField "content")
    if text ≠ "" then [text] else []
  else if entry.getField "type" = some (.str "event_msg") then
    match asRecO (entry.getField "payload") with
    | some payload =>
      if payload.getField "type" = some (.str "user_message") then
        match payload.getField "message" with
        | some (.str s) => [s]
        | _ => []
      else []
    | none => []
  else []

/-- `looksLikeCodexEntry`: the content-sniffing discriminator test. -/
def looksLikeCodexEntry (entry : Json) : Bool :=
  match entry.getField "type" with
  | some (.str t) =>
    if ["session_meta", "response_item", "event_msg", "turn_context",
        "compacted", "message"].contains t then true
    else if ["user", "assistant", "system", "summary",
             "file-history-snapshot", "queue-operation"].contains t then false
    else
      if (match entry.getField "id", entry.getField "instructions" with
          | some (.str _), some (.str _) => true
          | _, _ => false) then true
      else entry.getField "record_type" = some (.str "state")
  | _ =>
    if (match entry.getField "id", entry.getField "instructions" with
        | some (.str _), some (.str _) => true
        | _, _ => false) then true
    else entry.getField "record_type" = some (.str "state")

/-- `normalizeTimestamp`: a non-empty string timestamp is kept, anything
else is replaced by the current time (`now`). -/
def normalizeTimestamp (now : String) : Option Json → String
  | some (.str s) => if s.length > 0 then s else now
  | _ => now

/-- `parseToolInput`: records pass through, strings are parsed
(wrapping non-record results, keeping the raw text on failure),
everything else becomes `{}`. -/
def parseToolInput (parse : String → Option Json) (raw : Option Json) : Json :=
  match raw with
  | some j =>
    if j.isRec then j
    else
      match j with
      | .str s =>
        if (jsTrim s).length = 0 then Json.obj .nil
        else
          match parse s with
          | some p => if p.isRec then p else Json.obj (.cons "value" p .nil)
          | none => Json.obj (.cons "raw" (.str s) .nil)
      | _ => Json.obj .nil
  | none => Json.obj .nil

/-- `normalizeToolOutput`: strings pass through, `undefined` becomes `""`,
anything else is serialized. -/
def normalizeToolOutput (raw : Option Json) : String :=
  match raw with
  | some (.str s) => s
  | none => ""
  | some j => Json.stringify j

/-- The `SessionContext` accumulator threaded through one conversion. -/
structure CodexSessionContext where
  sessionId : String
  cwd : String
  version : String
  model : String
  agentId : Option String := none
deriving DecidableEq

/-- `updateContextFromSessionMeta`: non-empty (truthy) metadata values
overwrite the accumulated session id, cwd, version and model; a
`thread_spawn` parent id, when present, is recorded as the agent id. -/
def updateContextFromSessionMeta (context : CodexSessionContext) (entry : Json) :
    CodexSessionContext :=
  if entry.getField "type" = some (.str "session_meta") then
    match asRecO (entry.getField "payload") with
    | some payload =>
      let c1 :=
        match truthyStr (payload.getStr "id") with
        | some s => { context with sessionId := s }
        | none => context
      let c2 :=
        match truthyStr (payload.getStr "cwd") with
        | some s => { c1 with cwd := s }
        | none => c1
      let c3 :=
        match truthyStr (payload.getStr "cli_version") with
        | some s => { c2 with version := s }
        | none => c2
      let c4 :=
        match truthyStr (payload.getStr "model") with
        | some s => { c3 with model := s }
        | none => c3
      let source := asRecO (payload.getField "source")
      let subagent := source.bind (fun s => asRecO (s.getField "subagent"))
      let threadSpawn := subagent.bind (fun s => asRecO (s.getField "thread_spawn"))
      let parentThreadId := threadSpawn.bind (fun t => t.getStr "parent_thread_id")
      match truthyStr parentThreadId with
      | some p => { c4 with agentId := some p }
      | none => c4
    | none => context
  else context

/-- `updateContextFromTurnContext`: a turn-context cwd only fills an empty
accumulator cwd (`if (cwd && !context.cwd)`); a non-empty model always
overwrites. -/
def updateContextFromTurnContext (context : CodexSessionContext) (entry : Json) :
    CodexSessionContext :=
  if entry.getField "type" = some (.str "turn_context") then
    match asRecO (entry.getField "payload") with
    | some payload =>
      let c1 :=
        match truthyStr (payload.getStr "cwd") with
        | some s => if context.cwd = "" then { context with cwd := s } else context
        | none => context
      let c2 :=
        match truthyStr (payload.getStr "model") with
        | some s => { c1 with model := s }
        | none => c1
      c2
    | none => context
  else context

/-- `extractCodexSessionMeta`: the first truthy `cwd` carried by a
`session_meta` or `turn_context` line (used for foreign-group derivation). -/
def extractCodexSessionMetaLines (parse : String → Option Json) :
    List String → Option String
  | [] => none
  | line :: rest =>
    if jsTrim line = "" then extractCodexSessionMetaLines parse rest
    else
      match parse line with
      | some r =>
        if r.isRec then
          if r.getField "type" = some (.str "session_meta") then
            match truthyStr ((asRecO (r.getField "payload")).bind (fun p => p.getStr "cwd")) with
            | some cwd => some cwd
            | none => extractCodexSessionMetaLines parse rest
          else if r.getField "type" = some (.str "turn_context") then
            match truthyStr ((asRecO (r.getField "payload")).bind (fun p => p.getStr "cwd")) with
            | some cwd => some cwd
            | none => extractCodexSessionMetaLines parse rest
          else extractCodexSessionMetaLines parse rest
        else extractCodexSessionMetaLines parse rest
      | none => extractCodexSessionMetaLines parse rest

/-- `extractCodexSessionMeta` over a whole chunk of text. -/
def extractCodexSessionMeta (parse : String → Option Json) (content : String) :
    Option String :=
  extractCodexSessionMetaLines parse (jsSplitNl content)

/-- `extractReasoningSummary`: join the `text` fields of the summary items. -/
def reasoningParts : JsonA → List String
  | .nil => []
  | .cons h t =>
    (match h.getField "text" with
     | some (.str s) => [s]
     | _ => []) ++ reasoningParts t

/-- `extractReasoningSummary` from the conversationStore module. -/
def extractReasoningSummary (payload : Json) : String :=
  match payload.getField "summary" with
  | some (.arr items) => jsTrim (joinSep "\n\n" (reasoningParts items))
  | _ => ""

/-- `createBaseEntry`: the common canonical fields of a synthesized entry;
consumes one uuid; `isMeta` is emitted only when true, `agentId` only when
accumulated. -/
def createBaseEntry (gen : Nat → String) (now : String) (context : CodexSessionContext)
    (timestamp : Option Json) (isMeta : Bool) (n : Nat) : Json × Nat :=
  (Json.obj (JsonO.ofList
    ([("isSidechain", .bool false),
      ("userType", .str "external"),
      ("cwd", .str context.cwd),
      ("sessionId", .str context.sessionId),
      ("version", .str context.version),
      ("uuid", .str (gen n)),
      ("timestamp", .str (normalizeTimestamp now timestamp)),
      ("parentUuid", .null)]
     ++ (if isMeta then [("isMeta", .bool true)] else [])
     ++ (match context.agentId with
         | some a => [("agentId", .str a)]
         | none => []))), n + 1)

/-- `createAssistantMessage` (consumes a second uuid for the message id). -/
def createAssistantMessage (gen : Nat → String) (now : String)
    (context : CodexSessionContext) (timestamp : Option Json)
    (content : List Json) (isMeta : Bool) (n : Nat) : Json × Nat :=
  let (base, n1) := createBaseEntry gen now context timestamp isMeta n
  (base.extendObj
    [("type", .str "assistant"),
     ("message", Json.obj (JsonO.ofList
       [("id", .str (gen n1)),
        ("type", .str "message"),
        ("role", .str "assistant"),
        ("model", .str context.model),
        ("content", .arr (JsonA.ofList content)),
        ("stop_reason", .null),
        ("stop_sequence", .null),
        ("usage", Json.obj (JsonO.ofList
          [("input_tokens", .num 0), ("output_tokens", .num 0)]))]))], n1 + 1)

/-- `createUserMessage`. -/
def createUserMessage (gen : Nat → String) (now : String)
    (context : CodexSessionContext) (timestamp : Option Json)
    (content : Json) (isMeta : Bool) (n : Nat) : Json × Nat :=
  let (base, n1) := createBaseEntry gen now context timestamp isMeta n
  (base.extendObj
    [("type", .str "user"),
     ("message", Json.obj (JsonO.ofList
       [("role", .str "user"), ("content", content)]))], n1)

/-- `createSystemMessage` (consumes a second uuid for `toolUseID`). -/
def createSystemMessage (gen : Nat → String) (now : String)
    (context : CodexSessionContext) (timestamp : Option Json)
    (content : String) (isMeta : Bool) (n : Nat) : Json × Nat :=
  let (base, n1) := createBaseEntry gen now context timestamp isMeta n
  (base.extendObj
    [("type", .str "system"),
     ("content", .str content),
     ("toolUseID", .str (gen n1)),
     ("level", .str "info")], n1 + 1)

/-- `pushAssistantText`: empty-after-trim text is dropped. -/
def pushAssistantText (gen : Nat → String) (now : String)
    (context : CodexSessionContext) (timestamp : Option Json)
    (entries : List Json) (text : String) (n : Nat) : List Json × Nat :=
  let trimmed := jsTrim text
  if trimmed = "" then (entries, n)
  else
    let (m, n') := createAssistantMessage gen now context timestamp
      [Json.obj (JsonO.ofList [("type", .str "text"), ("text", .str trimmed)])] false n
    (entries ++ [m], n')

/-- `pushAssistantThinking`: empty-after-trim text is dropped. -/
def pushAssistantThinking (gen : Nat → String) (now : String)
    (context : CodexSessionContext) (timestamp : Option Json)
    (entries : List Json) (text : String) (n : Nat) : List Json × Nat :=
  let trimmed := jsTrim text
  if trimmed = "" then (entries, n)
  else
    let (m, n') := createAssistantMessage gen now context timestamp
      [Json.obj (JsonO.ofList [("type", .str "thinking"), ("thinking", .str trimmed)])] false n
    (entries ++ [m], n')

/-- `pushAssistantToolUse`: always emitted, always flagged `isMeta`. -/
def pushAssistantToolUse (gen : Nat → String) (now : String)
    (context : CodexSessionContext) (timestamp : Option Json)
    (entries : List Json) (toolId toolName : String) (input : Json) (n : Nat) :
    List Json × Nat :=
  let (m, n') := createAssistantMessage gen now context timestamp
    [Json.obj (JsonO.ofList
      [("type", .str "tool_use"), ("id", .str toolId),
       ("name", .str toolName), ("input", input)])] true n
  (entries ++ [m], n')

/-- `pushUserToolResult`: always emitted, always flagged `isMeta`;
`is_error` is emitted only when true. -/
def pushUserToolResult (gen : Nat → String) (now : String)
    (context : CodexSessionContext) (timestamp : Option Json)
    (entries : List Json) (toolUseId output : String) (isError : Bool) (n : Nat) :
    List Json × Nat :=
  let (m, n') := createUserMessage gen now context timestamp
    (.arr (JsonA.ofList
      [Json.obj (JsonO.ofList
        ([("type", .str "tool_result"), ("tool_use_id", .str toolUseId),
          ("content", .str output)]
         ++ (if isError then [("is_error", .bool true)] else [])))])) true n
  (entries ++ [m], n')

/-- `pushUserText`: empty-after-trim text is dropped; the meta flag is the
meta-content heuristic applied to the trimmed text. -/
def pushUserText (gen : Nat → String) (now : String)
    (context : CodexSessionContext) (timestamp : Option Json)
    (entries : List Json) (text : String) (n : Nat) : List Json × Nat :=
  let trimmed := jsTrim text
  if trimmed = "" then (entries, n)
  else
    let (m, n') := createUserMessage gen now context timestamp (.str trimmed)
      (isMetaConversationText trimmed) n
    (entries ++ [m], n')

/-- `pushDeveloperAsSystem`: developer messages become meta system entries. -/
def pushDeveloperAsSystem (gen : Nat → String) (now : String)
    (context : CodexSessionContext) (timestamp : Option Json)
    (entries : List Json) (text : String) (n : Nat) : List Json × Nat :=
  let trimmed := jsTrim text
  if trimmed = "" then (entries, n)
  else
    let (m, n') := createSystemMessage gen now context timestamp trimmed true n
    (entries ++ [m], n')

/-- The conversion state: the session-context accumulator, the emitted
entries and the uuid counter. -/
structure ConvState where
  context : CodexSessionContext
  entries : List Json
  next : Nat
deriving DecidableEq

/-- Dispatch of a role-tagged message payload (shared by `response_item`
messages and bare `message` records). -/
def dispatchRoleMessage (gen : Nat → String) (now : String) (st : ConvState)
    (context : CodexSessionContext) (role : Option String) (text : String)
    (timestamp : Option Json) : ConvState :=
  if role = some "assistant" then
    let (e, n) := pushAssistantText gen now context timestamp st.entries text st.next
    { context := context, entries := e, next := n }
  else if role = some "user" then
    let (e, n) := pushUserText gen now context timestamp st.entries text st.next
    { context := context, entries := e, next := n }
  else if role = some "developer" then
    let (e, n) := pushDeveloperAsSystem gen now context timestamp st.entries text st.next
    { context := context, entries := e, next := n }
  else { st with context := context }

/-- The body of the conversion loop of `convertCodexJsonlToConversationJsonl`
for one parsed record: update the session context, then dispatch on the
record and payload discriminators. -/
def convertStep (parse : String → Option Json) (gen : Nat → String) (now : String)
    (hasResponseMessages : Bool) (st : ConvState) (rec : Json) : ConvState :=
  let context := updateContextFromTurnContext
    (updateContextFromSessionMeta st.context rec) rec
  let ts := rec.getField "timestamp"
  if rec.getField "type" = some (.str "response_item") then
    match asRecO (rec.getField "payload") with
    | none => { st with context := context }
    | some payload =>
      if payload.getField "type" = some (.str "message") then
        dispatchRoleMessage gen now st context (payload.getStr "role")
          (extractCodexMessageText (payload.getField "content")) ts
      else if payload.getField "type" = some (.str "reasoning") then
        let summaryText := extractReasoningSummary payload
        if summaryText ≠ "" then
          let (e, n) := pushAssistantThinking gen now context ts st.entries summaryText st.next
          { context := context, entries := e, next := n }
        else { st with context := context }
      else if payload.getField "type" = some (.str "function_call") ∨
              payload.getField "type" = some (.str "custom_tool_call") then
        let (toolId, n0) :=
          match payload.getStr "call_id" with
          | some id => (id, st.next)
          | none => (gen st.next, st.next + 1)
        let toolName := (payload.getStr "name").getD "tool_call"
        let rawInput := nullish (payload.getField "arguments") (payload.getField "input")
        let (e, n) := pushAssistantToolUse gen now context ts st.entries toolId toolName
          (parseToolInput parse rawInput) n0
        { context := context, entries := e, next := n }
      else if payload.getField "type" = some (.str "function_call_output") ∨
              payload.getField "type" = some (.str "custom_tool_call_output") then
        let (toolId, n0) :=
          match payload.getStr "call_id" with
          | some id => (id, st.next)
          | none => (gen st.next, st.next + 1)
        let output := normalizeToolOutput (payload.getField "output")
        let (e, n) := pushUserToolResult gen now context ts st.entries toolId output false n0
        { context := context, entries := e, next := n }
      else if payload.getField "type" = some (.str "web_search_call") then
        let toolId := gen st.next
        let input := (asRecO (payload.getField "action")).getD (Json.obj .nil)
        let (e1, n1) := pushAssistantToolUse gen now context ts st.entries toolId
          "web_search" input (st.next + 1)
        match payload.getField "status" with
        | some (.str status) =>
          let (e2, n2) := pushUserToolResult gen now context ts e1 toolId
            ("status: " ++ status) false n1
          { context := context, entries := e2, next := n2 }
        | _ => { context := context, entries := e1, next := n1 }
      else { st with context := context }
  else if rec.getField "type" = some (.str "message") then
    dispatchRoleMessage gen now st context (rec.getStr "role")
      (extractCodexMessageText (rec.getField "content")) ts
  else if rec.getField "type" = some (.str "event_msg") ∧ ¬ hasResponseMessages then
    match asRecO (rec.getField "payload") with
    | none => { st with context := context }
    | some payload =>
      if payload.getField "type" = some (.str "user_message") then
        match payload.getField "message" with
        | some (.str s) =>
          let (e, n) := pushUserText gen now context ts st.entries s st.next
          { context := context, entries := e, next := n }
        | _ => { st with context := context }
      else if payload.getField "type" = some (.str "agent_message") then
        match payload.getField "message" with
        | some (.str s) =>
          let (e, n) := pushAssistantText gen now context ts st.entries s st.next
          { context := context, entries := e, next := n }
        | _ => { st with context := context }
      else if payload.getField "type" = some (.str "agent_reasoning") then
        match payload.getField "text" with
        | some (.str s) =>
          let (e, n) := pushAssistantThinking gen now context ts st.entries s st.next
          { context := context, entries := e, next := n }
        | _ => { st with context := context }
      else { st with context := context }
  else { st with context := context }

/-- `hasResponseMessages`: does any line carry a `response_item` record with
a `message` payload? -/
def hasResponseMessagesIn (parse : String → Option Json) (lines : List String) : Bool :=
  lines.any fun line =>
    match parse line with
    | some r =>
      if r.isRec then
        if r.getField "type" = some (.str "response_item") then
          match asRecO (r.getField "payload") with
          | some p => p.getField "type" = some (.str "message")
          | none => false
        else false
      else false
    | none => false

/-- The non-empty lines of the input
(`content.split('\n').filter(line => line.trim().length > 0)`). -/
def nonEmptyLines (content : String) : List String :=
  (jsSplitNl content).filter (fun l => (jsTrim l).length > 0)

/-- The initial conversion state: a fresh session id (uuid 0), empty cwd,
the fallback version and model tags. -/
def initialConvState (gen : Nat → String) : ConvState :=
  { context :=
      { sessionId := gen 0, cwd := "", version := "codex",
        model := "gpt-5-codex", agentId := none },
    entries := [], next := 1 }

/-- The single forward pass of `convertCodexJsonlToConversationJsonl`:
non-record lines are skipped, every record updates the state. -/
def convertCodexEntriesState (parse : String → Option Json) (gen : Nat → String)
    (now : String) (content : String) : ConvState :=
  let lines := nonEmptyLines content
  let hasResponseMessages := hasResponseMessagesIn parse lines
  lines.foldl
    (fun st line =>
      match parse line with
      | some r => if r.isRec then convertStep parse gen now hasResponseMessages st r else st
      | none => st)
    (initialConvState gen)

/-- The canonical entries produced by one conversion. -/
def convertCodexEntries (parse : String → Option Json) (gen : Nat → String)
    (now : String) (content : String) : List Json :=
  (convertCodexEntriesState parse gen now content).entries

/-- `convertCodexJsonlToConversationJsonl`: if no entries were produced the
original text is returned unchanged, otherwise the entries are serialized
one JSON object per line. -/
def convertCodexJsonlToConversationJsonl (parse : String → Option Json)
    (gen : Nat → String) (now : String) (content : String) : String :=
  let entries := convertCodexEntries parse gen now content
  if entries.isEmpty then content
  else joinSep "\n" (entries.map Json.stringify)

/-- `isLikelyCodexJsonl` restricted to content sniffing (the path-based
branch is part of the scanner model below): classify by the first
parseable record line. -/
def isLikelyCodexJsonlContent (parse : String → Option Json) (content : String) : Bool :=
  firstRecordLine (jsSplitNl content)
where
  firstRecordLine : List String → Bool
  | [] => false
  | line :: rest =>
    if jsTrim line = "" then firstRecordLine rest
    else
      match parse line with
      | some r => if r.isRec then looksLikeCodexEntry r else firstRecordLine rest
      | none => firstRecordLine rest

/-- One accepted-candidate check of `extractSummary`: clean the candidate,
require non-emptiness and non-meta content, truncate to 100 characters. -/
def acceptCleaned (c : String) : Option String :=
  let cleaned := normalizeSummaryCandidate c
  if cleaned.length > 0 ∧ ¬ isMetaConversationText cleaned then
    some (strTake cleaned 100)
  else none

/-- The codex-candidates loop of `extractSummary`. -/
def firstCodexAccepted : List String → Option String
  | [] => none
  | c :: cs =>
    match acceptCleaned c with
    | some s => some s
    | none => firstCodexAccepted cs

/-- The per-line candidate logic of `extractSummary`: the Claude candidate
(when truthy) is tried first, then the codex candidates in order. -/
def lineSummary (entry : Json) : Option String :=
  match extractClaudeSummaryCandidate entry with
  | some c =>
    if c ≠ "" then
      match acceptCleaned c with
      | some s => some s
      | none => firstCodexAccepted (extractCodexSummaryCandidates entry)
    else firstCodexAccepted (extractCodexSummaryCandidates entry)
  | none => firstCodexAccepted (extractCodexSummaryCandidates entry)

/-- The line loop of `extractSummary`: blank and unparseable lines are
skipped, extraction stops at the first accepted candidate. -/
def extractSummaryLines (parse : String → Option Json) : List String → String
  | [] => ""
  | line :: rest =>
    if jsTrim line = "" then extractSummaryLines parse rest
    else
      match parse line with
      | some r =>
        if r.isRec then
          match lineSummary r with
          | some s => s
          | none => extractSummaryLines parse rest
        else extractSummaryLines parse rest
      | none => extractSummaryLines parse rest

/-- `extractSummary`: the first usable human-readable snippet of the text,
or the empty string. -/
def extractSummary (parse : String → Option Json) (content : String) : String :=
  extractSummaryLines parse (jsSplitNl content)

/-- Declarative reading of the preview extraction: all accepted candidates
of all lines, in scan order. -/
def acceptedCandidates (parse : String → Option Json) (content : String) : List String :=
  (jsSplitNl content).flatMap fun line =>
    if jsTrim line = "" then []
    else
      match parse line with
      | some r =>
        if r.isRec then
          (match extractClaudeSummaryCandidate r with
           | some c => if c ≠ "" then [c] else []
           | none => []).filterMap acceptCleaned
          ++ (extractCodexSummaryCandidates r).filterMap acceptCleaned
        else []
      | none => []

/-- `encodeWorkspacePath`: replace `/` with `-`. -/
def encodeWorkspacePath (workspacePath : String) : String :=
  String.mk (workspacePath.data.map (fun c => if c = '/' then '-' else c))

end Store

/-! ## Filesystem model
A finite directory tree; directory entries are kept in `readdir` order.
Paths are segment lists relative to the filesystem root; `joinPath`
produces the display string used in the scanned records. -/

/-- A path as a list of segments. -/
abbrev FPath := List String

mutual

/-- A filesystem node: a regular file (with stat data and text content) or
a directory. -/
inductive FSNode where
  | file (size : Nat) (mtime : Int) (content : String)
  | dir (children : FSEntries)
deriving DecidableEq

/-- Directory entries in `readdir` order. -/
inductive FSEntries where
  | nil
  | cons (name : String) (node : FSNode) (rest : FSEntries)
deriving DecidableEq

end

/-- First child with the given name. -/
def FSEntries.findName : FSEntries → String → Option FSNode
  | .nil, _ => none
  | .cons n node rest, name =>
    if n = name then some node else FSEntries.findName rest name

/-- Resolve a path against a node. -/
def FSNode.lookup : FSNode → FPath → Option FSNode
  | n, [] => some n
  | .dir children, seg :: rest =>
    match children.findName seg with
    | some child => child.lookup rest
    | none => none
  | .file _ _ _, _ :: _ => none

mutual

/-- Size of a node (for fuel bounds). -/
def FSNode.nsize : FSNode → Nat
  | .file _ _ _ => 1
  | .dir ch => 1 + ch.nsize

/-- Total size of directory entries. -/
def FSEntries.nsize : FSEntries → Nat
  | .nil => 0
  | .cons _ n rest => n.nsize + rest.nsize

end

/-- `fs.existsSync` / a successful `fs.promises.access`. -/
def pathExists (fs : FSNode) (p : FPath) : Bool :=
  (fs.lookup p).isSome

/-- `fs.statSync` on a regular file (directories and missing paths give
`none`; the scanners only stat paths listed as files). -/
def statFile (fs : FSNode) (p : FPath) : Option (Nat × Int) :=
  match fs.lookup p with
  | some (.file size mtime _) => some (size, mtime)
  | _ => none

/-- `readFileChunk`: the first `maxBytes` of a file's content (modelled on
characters; byte-exact UTF-8 truncation is not modelled). `none` models a
thrown open/read error (missing file or directory). -/
def readFileChunkFS (fs : FSNode) (p : FPath) (maxBytes : Nat) : Option String :=
  match fs.lookup p with
  | some (.file _ _ content) => some (strTake content maxBytes)
  | _ => none

/-- Display string of a path (`path.join` with `/`). -/
def joinPath (p : FPath) : String :=
  p.foldl (fun acc seg => acc ++ "/" ++ seg) ""

namespace Store

/-- `ConversationSource`. -/
inductive ConversationSource where
  | Claude
  | Codex
deriving DecidableEq

/-- `ConversationProfile`. -/
inductive ConversationProfile where
  | Work
  | Personal
deriving DecidableEq

/-- `ConversationFile` (the summary is `null` until lazily computed). -/
structure ConversationFile where
  name : String
  path : String
  folder : String
  size : Nat
  summary : Option String
  lastModified : Int
  source : Option ConversationSource
  profile : Option ConversationProfile
deriving DecidableEq

/-- `FolderNode`. -/
structure FolderNode where
  name : String
  path : String
  files : List ConversationFile
deriving DecidableEq

/-- The group → file-listing mapping (`Map<string, FolderNode>`,
insertion-ordered). -/
abbrev FoldersMap := List (String × FolderNode)

/-- Map lookup (`folders.get(name)`). -/
def findFolder (m : FoldersMap) (k : String) : Option FolderNode :=
  match m with
  | [] => none
  | e :: rest => if e.1 = k then some e.2 else findFolder rest k

/-- Replace the first entry with the given key in place. -/
def updateFolder (m : FoldersMap) (k : String) (f : FolderNode → FolderNode) :
    FoldersMap :=
  match m with
  | [] => []
  | e :: rest =>
    if e.1 = k then (e.1, f e.2) :: rest else e :: updateFolder rest k f

/-- `ensureFolderNode` + `addConversationFile`: get or create the folder
node, then push the file unless a file with the same absolute path is
already listed (re-scans merge additively, de-duplicating by path). -/
def addConversationFile (m : FoldersMap) (folderName folderPath : String)
    (file : ConversationFile) : FoldersMap :=
  match findFolder m folderName with
  | some node =>
    if node.files.any (fun existing => existing.path = file.path) then m
    else updateFolder m folderName (fun n => { n with files := n.files ++ [file] })
  | none => m ++ [(folderName, { name := folderName, path := folderPath, files := [file] })]

/-- One discovered file: its group key, the group's display path and the
file record (the unit the scanners feed to `addConversationFile`). -/
abbrev ScanRecord := String × String × ConversationFile

/-- Fold a list of discovered files into the folder mapping (the
scan loops call `addConversationFile` once per discovered file, in
traversal order). -/
def foldScan (m : FoldersMap) (records : List ScanRecord) : FoldersMap :=
  records.foldl (fun m r => addConversationFile m r.1 r.2.1 r.2.2) m

/-- `getClaudeProjectsPaths` (default root plus the profile roots),
relative to the home directory. -/
def getClaudeProjectsPaths (home : FPath) : List FPath :=
  [home ++ [".claude", "projects"],
   home ++ [".claude-profiles", "work", "projects"],
   home ++ [".claude-profiles", "personal", "projects"]]

/-- `getCodexPaths`. -/
def getCodexPaths (home : FPath) : List FPath :=
  [home ++ [".codex"],
   home ++ [".codex-profiles", "work"],
   home ++ [".codex-profiles", "personal"]]

/-- `getCodexSessionRoots` (`sessions` and `archived_sessions` under every
codex base; `Array.from(new Set(...))` de-duplication). -/
def getCodexSessionRoots (home : FPath) : List FPath :=
  ((getCodexPaths home).flatMap
    (fun codexPath => [codexPath ++ ["sessions"], codexPath ++ ["archived_sessions"]])).eraseDups

/-- `detectConversationProfile`: classify a root path string as a Work or
Personal profile root. -/
def detectConversationProfile (basePath : String) : Option ConversationProfile :=
  let normalized := String.mk (basePath.data.map (fun c => if c = '\\' then '/' else c))
  if strEndsWith normalized "/.claude-profiles/work/projects" ∨
     strContains normalized "/.claude-profiles/work/" ∨
     strEndsWith normalized "/.codex-profiles/work" ∨
     strContains normalized "/.codex-profiles/work/" then some .Work
  else if strEndsWith normalized "/.claude-profiles/personal/projects" ∨
          strContains normalized "/.claude-profiles/personal/" ∨
          strEndsWith normalized "/.codex-profiles/personal" ∨
          strContains normalized "/.codex-profiles/personal/" then some .Personal
  else none

/-- Does a directory-entry name end in `.jsonl`? -/
def jsonlName (name : String) : Bool :=
  strEndsWith name ".jsonl"

/-- The files of one Claude project folder that pass the selection
predicate (regular file, `.jsonl` extension, size at least
`MIN_FILE_SIZE`), in `readdir` order. -/
def claudeFolderFiles (profile : Option ConversationProfile) (folderName : String)
    (folderPath : FPath) : FSEntries → List ScanRecord
  | .nil => []
  | .cons fname fnode rest =>
    (match fnode with
     | .file size mtime _ =>
       if jsonlName fname ∧ ¬ size < MIN_FILE_SIZE then
         [(folderName, joinPath folderPath,
           { name := fname, path := joinPath (folderPath ++ [fname]),
             folder := folderName, size := size, summary := none,
             lastModified := mtime, source := some .Claude, profile := profile })]
       else []
     | .dir _ => []) ++ claudeFolderFiles profile folderName folderPath rest

/-- The project directories of one Claude root, in `readdir` order. -/
def claudeRootRecords (profile : Option ConversationProfile) (projectsPath : FPath) :
    FSEntries → List ScanRecord
  | .nil => []
  | .cons name node rest =>
    (match node with
     | .dir ch => claudeFolderFiles profile name (projectsPath ++ [name]) ch
     | .file _ _ _ => []) ++ claudeRootRecords profile projectsPath rest

/-- The files discovered by the Claude scan, in discovery order (missing
roots are skipped silently). The synchronous and asynchronous scans walk
the same directories in the same `readdir` order, so they share this
discovery list. -/
def claudeScanList (home : FPath) (fs : FSNode) : List ScanRecord :=
  (getClaudeProjectsPaths home).flatMap fun projectsPath =>
    match fs.lookup projectsPath with
    | some (.dir entries) =>
      claudeRootRecords (detectConversationProfile (joinPath projectsPath)) projectsPath entries
    | _ => []

mutual

/-- `collectJsonlFilesSync` on a resolved node: depth-first, recursing into
a subdirectory as soon as it is listed. -/
def collectSyncNode (p : FPath) : FSNode → List FPath
  | .file _ _ _ => []
  | .dir ch => collectSyncEntries p ch

/-- `collectJsonlFilesSync` over the entries of one directory. -/
def collectSyncEntries (p : FPath) : FSEntries → List FPath
  | .nil => []
  | .cons name node rest =>
    (match node with
     | .dir _ => collectSyncNode (p ++ [name]) node
     | .file _ _ _ => if jsonlName name then [p ++ [name]] else []) ++
    collectSyncEntries p rest

end

/-- `collectJsonlFilesSync` from a root path. -/
def collectJsonlFilesSync (fs : FSNode) (rootDir : FPath) : List FPath :=
  match fs.lookup rootDir with
  | some n => collectSyncNode rootDir n
  | none => []

/-- The subdirectories a directory listing pushes onto the traversal queue
of `collectJsonlFilesAsync`, in listing order. -/
def subdirsOf (p : FPath) : FSEntries → List (FPath × FSNode)
  | .nil => []
  | .cons name node rest =>
    (match node with
     | .dir _ => [(p ++ [name], node)]
     | .file _ _ _ => []) ++ subdirsOf p rest

/-- The `.jsonl` files a directory listing appends, in listing order. -/
def jsonlFilesOf (p : FPath) : FSEntries → List FPath
  | .nil => []
  | .cons name node rest =>
    (match node with
     | .file _ _ _ => if jsonlName name then [p ++ [name]] else []
     | .dir _ => []) ++ jsonlFilesOf p rest

/-- The loop of `collectJsonlFilesAsync`: `queue.pop()` takes the *last*
queued directory, its subdirectories are pushed at the end; a `readdir`
failure (popping a non-directory) skips the entry. Structural fuel is used
in place of the (provable) termination measure so that the definition
computes by reduction; `collectAsyncFuelSufficient` below shows the chosen
fuel never runs out. -/
def collectAsyncLoop (gas : Nat) (queue : List (FPath × FSNode))
    (files : List FPath) : List FPath :=
  match gas, queue with
  | 0, _ => files
  | _ + 1, [] => files
  | gas + 1, a :: as =>
    let pn := (a :: as).getLast (List.cons_ne_nil a as)
    let rest := (a :: as).dropLast
    match pn.2 with
    | .file _ _ _ => collectAsyncLoop gas rest files
    | .dir ch =>
      collectAsyncLoop gas (rest ++ subdirsOf pn.1 ch) (files ++ jsonlFilesOf pn.1 ch)

/-- Total size of the nodes in the traversal queue. -/
def queueSizes (queue : List (FPath × FSNode)) : Nat :=
  (queue.map (fun pn => pn.2.nsize)).sum

/-- `collectJsonlFilesAsync` from a root path. -/
def collectJsonlFilesAsync (fs : FSNode) (rootDir : FPath) : List FPath :=
  match fs.lookup rootDir with
  | some n => collectAsyncLoop n.nsize [(rootDir, n)] []
  | none => []

/-- `getFolderNameForCodexFile` (and its async twin, which reads the same
chunk and applies the same extraction): derive the group key from the
file's embedded working-directory metadata, falling back to the unknown
group keyed next to the file. -/
def getFolderNameForCodexFile (parse : String → Option Json) (fs : FSNode)
    (filePath : FPath) : String × String :=
  match readFileChunkFS fs filePath CODEX_SUMMARY_CHUNK_SIZE with
  | some chunk =>
    match extractCodexSessionMeta parse chunk with
    | some cwd => (encodeWorkspacePath cwd, cwd)
    | none => (CODEX_UNKNOWN_FOLDER, joinPath filePath.dropLast)
  | none => (CODEX_UNKNOWN_FOLDER, joinPath filePath.dropLast)

/-- The record built for one discovered Codex file: stat, size gate, group
derivation (`none` models a stat error, which skips the file). -/
def codexFileRecord (parse : String → Option Json) (fs : FSNode)
    (profile : Option ConversationProfile) (filePath : FPath) : Option ScanRecord :=
  match statFile fs filePath with
  | none => none
  | some (size, mtime) =>
    if size < MIN_FILE_SIZE then none
    else
      let folderInfo := getFolderNameForCodexFile parse fs filePath
      some (folderInfo.1, folderInfo.2,
        { name := filePath.getLastD "", path := joinPath filePath,
          folder := folderInfo.1, size := size, summary := none,
          lastModified := mtime, source := some .Codex, profile := profile })

/-- The files discovered by the synchronous Codex scan, in discovery
order. -/
def codexScanListSync (parse : String → Option Json) (home : FPath) (fs : FSNode) :
    List ScanRecord :=
  (getCodexSessionRoots home).flatMap fun rootPath =>
    if pathExists fs rootPath then
      (collectJsonlFilesSync fs rootPath).filterMap
        (codexFileRecord parse fs (detectConversationProfile (joinPath rootPath)))
    else []

/-- The files discovered by the asynchronous Codex scan, in discovery
order (the traversal order differs from the synchronous walk). -/
def codexScanListAsync (parse : String → Option Json) (home : FPath) (fs : FSNode) :
    List ScanRecord :=
  (getCodexSessionRoots home).flatMap fun rootPath =>
    if pathExists fs rootPath then
      (collectJsonlFilesAsync fs rootPath).filterMap
        (codexFileRecord parse fs (detectConversationProfile (joinPath rootPath)))
    else []

/-- `b.lastModified - a.lastModified` as a sort relation: newest first. -/
def newerFirst (a b : ConversationFile) : Prop :=
  b.lastModified ≤ a.lastModified

instance : DecidableRel newerFirst := fun a b =>
  inferInstanceAs (Decidable (b.lastModified ≤ a.lastModified))

/-- `sortFolderFilesByDate`: stable sort of every folder's files, newest
first (`Array.prototype.sort` is stable; `List.insertionSort` is the
corresponding stable sort). -/
def sortFolderFilesByDate (m : FoldersMap) : FoldersMap :=
  m.map (fun e => (e.1, { e.2 with files := List.insertionSort newerFirst e.2.files }))

/-- All files discovered by one synchronous scan, in discovery order
(Claude roots first, then Codex roots, exactly as `scanForConversations`
runs its two passes). -/
def syncScanList (parse : String → Option Json) (home : FPath) (fs : FSNode) :
    List ScanRecord :=
  claudeScanList home fs ++ codexScanListSync parse home fs

/-- All files discovered by one asynchronous scan, in discovery order. -/
def asyncScanList (parse : String → Option Json) (home : FPath) (fs : FSNode) :
    List ScanRecord :=
  claudeScanList home fs ++ codexScanListAsync parse home fs

/-- `scanForConversations` (blocking): scan the Claude roots, then the
Codex roots, then sort every folder newest-first. -/
def scanForConversations (parse : String → Option Json) (home : FPath) (fs : FSNode) :
    FoldersMap :=
  sortFolderFilesByDate (foldScan [] (syncScanList parse home fs))

/-- `scanForConversationsAsync` (non-blocking): identical passes, but the
Codex walk uses the queue-based traversal. -/
def scanForConversationsAsync (parse : String → Option Json) (home : FPath) (fs : FSNode) :
    FoldersMap :=
  sortFolderFilesByDate (foldScan [] (asyncScanList parse home fs))

end Store

/-! ## The extension-side fileSystem module
Embedding of `src/extension/fileSystem.ts` (the older, Claude-only
scanner): a single projects root, a 5 KB size floor, folders registered
only when non-empty. -/

namespace Ext

/-- `MIN_FILE_SIZE` from src/extension/fileSystem.ts (5 KB minimum). -/
def MIN_FILE_SIZE : Nat := 5 * 1024

/-- `MAX_FILE_SIZE_FOR_FULL_READ` (50 MB). -/
def MAX_FILE_SIZE_FOR_FULL_READ : Nat := 50 * 1024 * 1024

/-- `getClaudeProjectsPath`. -/
def getClaudeProjectsPath (home : FPath) : FPath :=
  home ++ [".claude", "projects"]

/-- The files of one project folder passing this module's selection
predicate, in `readdir` order. -/
def folderFiles (folderName : String) (folderPath : FPath) :
    FSEntries → List Store.ConversationFile
  | .nil => []
  | .cons fname fnode rest =>
    (match fnode with
     | .file size mtime _ =>
       if Store.jsonlName fname ∧ ¬ size < MIN_FILE_SIZE then
         [{ name := fname, path := joinPath (folderPath ++ [fname]),
            folder := folderName, size := size, summary := none,
            lastModified := mtime, source := none, profile := none }]
       else []
     | .dir _ => []) ++ folderFiles folderName folderPath rest

/-- The per-directory loop of this module's `scanForConversations`:
files are sorted newest-first and the folder is registered only when it
has at least one file. -/
def scanFolders (projectsPath : FPath) : FSEntries → Store.FoldersMap
  | .nil => []
  | .cons name node rest =>
    (match node with
     | .dir ch =>
       let files := List.insertionSort Store.newerFirst
         (folderFiles name (projectsPath ++ [name]) ch)
       if files.isEmpty then []
       else [(name, { name := name, path := joinPath (projectsPath ++ [name]),
                      files := files : Store.FolderNode })]
     | .file _ _ _ => []) ++ scanFolders projectsPath rest

/-- `scanForConversations` from src/extension/fileSystem.ts (the
asynchronous variant walks the same tree in the same order). -/
def scanForConversations (home : FPath) (fs : FSNode) : Store.FoldersMap :=
  match fs.lookup (getClaudeProjectsPath home) with
  | some (.dir entries) => scanFolders (getClaudeProjectsPath home) entries
  | _ => []

end Ext

/-! ## Concrete fixtures and accessors used by the theorems -/

/-- A parse function on which every line fails to decode (models inputs in
which no line is valid JSON). -/
def parseNone : String → Option Json := fun _ => none

/-- A concrete uuid generator for witnesses. -/
def genU : Nat → String := fun n => "uuid-" ++ toString n

/-- The decoded form of the native-schema line
`{"type":"progress","data":{"type":"bash_progress","elapsedTimeSeconds":3,"totalLines":10}}`. -/
def bashProgressLine : Json :=
  Json.obj (JsonO.ofList [("type", .str "progress"),
    ("data", Json.obj (JsonO.ofList [("type", .str "bash_progress"),
      ("elapsedTimeSeconds", .num 3), ("totalLines", .num 10)]))])

/-- A session context that has already accumulated a working directory. -/
def ctxA : Store.CodexSessionContext :=
  { sessionId := "s", cwd := "/a", version := "v", model := "m", agentId := none }

/-- A `turn_context` record supplying a later, non-empty `cwd`. -/
def turnCtxRec : Json :=
  Json.obj (JsonO.ofList [("type", .str "turn_context"),
    ("payload", Json.obj (JsonO.ofList [("cwd", .str "/b")]))])

/-- A foreign `web_search_call` record with no `status` field. -/
def webSearchNoStatus : Json :=
  Json.obj (JsonO.ofList [("type", .str "response_item"),
    ("payload", Json.obj (JsonO.ofList [("type", .str "web_search_call")]))])

/-- A foreign `web_search_call` record carrying a string `status`. -/
def webSearchWithStatus : Json :=
  Json.obj (JsonO.ofList [("type", .str "response_item"),
    ("payload", Json.obj (JsonO.ofList [("type", .str "web_search_call"),
      ("status", .str "completed")]))])

/-- A conversion state in the middle of a pass. -/
def stMid : Store.ConvState :=
  { context := ctxA, entries := [], next := 5 }

/-- Base fields with every optional field absent. -/
def base0 : ConversationSchema.BaseEntryFields := {}

/-- An entry sequence whose only invocation for `tool_1` records the empty
string as its name, followed by a matching tool result. -/
def convsEmptyName : List Viewer.ParsedLine :=
  [.entry (.assistant base0 { content := [.toolUse "tool_1" "" (Json.obj .nil)] }),
   .entry (.user base0
     { content := Sum.inr
         [.toolResult { tool_use_id := "tool_1", content := .str "ok", is_error := none }] })]

/-- The first content item of a synthesized entry's message. -/
def entryFirstContentItem (e : Json) : Option Json :=
  match e.getField "message" with
  | some m =>
    match m.getField "content" with
    | some (.arr (.cons c _)) => some c
    | _ => none
  | none => none

/-- A home directory for the filesystem fixtures. -/
def homeH : FPath := ["h"]

/-- A filesystem with one Codex sessions root holding two sibling
directories whose `.jsonl` files have equal modification times. -/
def fsTie : FSNode :=
  .dir (.cons "h" (.dir (.cons ".codex" (.dir (.cons "sessions" (.dir
    (.cons "A" (.dir (.cons "a.jsonl" (.file 2048 5 "") .nil))
    (.cons "B" (.dir (.cons "b.jsonl" (.file 2048 5 "") .nil)) .nil))) .nil)) .nil)) .nil)

/-- The same tree with distinct modification times. -/
def fsDistinct : FSNode :=
  .dir (.cons "h" (.dir (.cons ".codex" (.dir (.cons "sessions" (.dir
    (.cons "A" (.dir (.cons "a.jsonl" (.file 2048 5 "") .nil))
    (.cons "B" (.dir (.cons "b.jsonl" (.file 2048 6 "") .nil)) .nil))) .nil)) .nil)) .nil)

/-- A filesystem whose Claude projects root holds one project directory
with a single `.jsonl` file of exactly 1024 bytes. -/
def fsBoundary : FSNode :=
  .dir (.cons "h" (.dir (.cons ".claude" (.dir (.cons "projects" (.dir
    (.cons "proj" (.dir (.cons "x.jsonl" (.file 1024 1 "") .nil)) .nil)) .nil)) .nil)) .nil)

/-- The same layout with a file of exactly 5120 bytes. -/
def fsBoundaryExt : FSNode :=
  .dir (.cons "h" (.dir (.cons ".claude" (.dir (.cons "projects" (.dir
    (.cons "proj" (.dir (.cons "x.jsonl" (.file 5120 1 "") .nil)) .nil)) .nil)) .nil)) .nil)

/-- Structural induction on directory entries (the mutual recursor
specialised to a trivial motive on nodes). -/
theorem FSEntries.indOn {motive : FSEntries → Prop} (ch : FSEntries)
    (nil : motive .nil)
    (cons : ∀ name node rest, motive rest → motive (.cons name node rest)) : motive ch :=
  FSEntries.rec (motive_1 := fun _ => True) (motive_2 := motive)
    (fun _ _ _ => trivial) (fun _ _ => trivial) nil
    (fun name node rest _ ih => cons name node rest ih) ch

/-- The record the scanner builds for the 1024-byte boundary file. -/
def recBoundary : Store.ScanRecord :=
  ("proj", "/h/.claude/projects/proj",
   { name := "x.jsonl", path := "/h/.claude/projects/proj/x.jsonl",
     folder := "proj", size := 1024, summary := none, lastModified := 1,
     source := some .Claude, profile := none })

/-! ## Theorems -/

/-- C7: the native-schema line
`{"type":"progress","data":{"type":"bash_progress","elapsedTimeSeconds":3,"totalLines":10}}`
validates, after the normalization pre-pass, to a system entry with level
`"info"` and content `"Bash progress. Elapsed: 3s. Lines: 10"` (its
tool-use id defaults to `"progress-update"` and its parent link to null). -/
theorem c7_bash_progress_validates :
    ConversationSchema.conversationSchemaParse bashProgressLine =
      some (.system {} "Bash progress. Elapsed: 3s. Lines: 10" "progress-update" "info") := by
  decide

/-- C1: the per-line validator is a total function: every non-blank line
yields exactly one outcome (the outcome list is the map over the non-blank
lines, so its length equals their count), every outcome is either a
canonical entry or the error variant, and whenever a line fails to decode
or the decoded value fails every declared variant the outcome is the error
variant `{ type := "x-error", line }` holding the original line text
verbatim — returned, never thrown. -/
theorem c1_per_line_validation (parse : String → Option Json) (content : String) :
    (Viewer.parseJsonlContent parse content).length =
      ((jsSplitNl content).filter (fun l => jsTrim l ≠ "")).length
    ∧ (∀ line : String,
        (parse line = none ∨
          ∃ j, parse line = some j ∧ ConversationSchema.conversationSchemaParse j = none) →
        Viewer.parseJsonlLine parse line = .xError line)
    ∧ (∀ line : String,
        (∃ c, Viewer.parseJsonlLine parse line = .entry c) ∨
        Viewer.parseJsonlLine parse line = .xError line) := by
  refine ⟨by simp [Viewer.parseJsonlContent], ?_, ?_⟩
  · intro line h
    rcases h with h | ⟨j, hj, hn⟩
    · simp [Viewer.parseJsonlLine, h]
    · simp [Viewer.parseJsonlLine, hj, hn]
  · intro line
    unfold Viewer.parseJsonlLine
    cases hp : parse line with
    | none => exact Or.inr rfl
    | some j =>
      cases hc : ConversationSchema.conversationSchemaParse j with
      | none => exact Or.inr (by simp [hc])
      | some c => exact Or.inl ⟨c, by simp [hc]⟩

/-- C1 witness: the line `not json at all` fails to decode and validates to
the error variant carrying that exact string. -/
theorem c1_witness :
    parseNone "not json at all" = none ∧
    Viewer.parseJsonlLine parseNone "not json at all" = .xError "not json at all" :=
  ⟨rfl, (c1_per_line_validation parseNone "").2.1 "not json at all" (Or.inl rfl)⟩

/-- C2: when the single pass over the non-empty lines produces zero
canonical entries, the converter returns the original input text unchanged
rather than an empty result. -/
theorem c2_noop_conversion_returns_input (parse : String → Option Json)
    (gen : Nat → String) (now content : String)
    (h : Store.convertCodexEntries parse gen now content = []) :
    Store.convertCodexJsonlToConversationJsonl parse gen now content = content := by
  simp [Store.convertCodexJsonlToConversationJsonl, h]

/-- C2 witness: a file none of whose lines decodes produces zero entries,
and conversion returns the text verbatim. -/
theorem c2_witness :
    Store.convertCodexEntries parseNone genU "t0" "not a codex file" = [] ∧
    Store.convertCodexJsonlToConversationJsonl parseNone genU "t0" "not a codex file" =
      "not a codex file" :=
  ⟨by decide, c2_noop_conversion_returns_input parseNone genU "t0" "not a codex file" (by decide)⟩

/-- C4 counterexample: the claim states that later non-empty values
supplied by turn-context records overwrite the accumulated `cwd`, but a
`turn_context` record carrying the non-empty cwd `/b` leaves an already
accumulated cwd `/a` unchanged (`updateContextFromTurnContext` only fills
an *empty* cwd). -/
theorem c4_turn_context_does_not_overwrite_cwd :
    (Store.updateContextFromTurnContext ctxA turnCtxRec).cwd = "/a" ∧
    truthyStr ((Json.obj (JsonO.ofList [("cwd", .str "/b")])).getStr "cwd") = some "/b" ∧
    ("/a" : String) ≠ "/b" := by
  decide

/-- C4 (amended): during conversion, later non-empty values supplied by
session-metadata records overwrite cwd, model and version, and a later
non-empty turn-context model overwrites the model; a turn-context cwd only
fills an empty accumulator cwd and never overwrites a non-empty one;
turn-context records never touch the version; and the parent-agent id,
once set, is never cleared or replaced by absence by either updater. -/
theorem c4_session_context_accumulation :
    (∀ (c : Store.CodexSessionContext) (e p : Json) (s : String),
      e.getField "type" = some (.str "session_meta") →
      asRecO (e.getField "payload") = some p →
      truthyStr (p.getStr "cwd") = some s →
      (Store.updateContextFromSessionMeta c e).cwd = s)
    ∧ (∀ (c : Store.CodexSessionContext) (e p : Json) (s : String),
      e.getField "type" = some (.str "session_meta") →
      asRecO (e.getField "payload") = some p →
      truthyStr (p.getStr "model") = some s →
      (Store.updateContextFromSessionMeta c e).model = s)
    ∧ (∀ (c : Store.CodexSessionContext) (e p : Json) (s : String),
      e.getField "type" = some (.str "session_meta") →
      asRecO (e.getField "payload") = some p →
      truthyStr (p.getStr "cli_version") = some s →
      (Store.updateContextFromSessionMeta c e).version = s)
    ∧ (∀ (c : Store.CodexSessionContext) (e p : Json) (s : String),
      e.getField "type" = some (.str "turn_context") →
      asRecO (e.getField "payload") = some p →
      truthyStr (p.getStr "model") = some s →
      (Store.updateContextFromTurnContext c e).model = s)
    ∧ (∀ (c : Store.CodexSessionContext) (e : Json),
      c.cwd ≠ "" → (Store.updateContextFromTurnContext c e).cwd = c.cwd)
    ∧ (∀ (c : Store.CodexSessionContext) (e : Json),
      (Store.updateContextFromTurnContext c e).version = c.version)
    ∧ (∀ (c : Store.CodexSessionContext) (e : Json),
      c.agentId.isSome → (Store.updateContextFromSessionMeta c e).agentId.isSome)
    ∧ (∀ (c : Store.CodexSessionContext) (e : Json),
      (Store.updateContextFromTurnContext c e).agentId = c.agentId) := by
  refine ⟨?_, ?_, ?_, ?_, ?_, ?_, ?_, ?_⟩
  · intro c e p s h1 h2 h3
    simp only [Store.updateContextFromSessionMeta, h1, h2, h3]
    try dsimp only
    repeat' split
    all_goals simp_all
  · intro c e p s h1 h2 h3
    simp only [Store.updateContextFromSessionMeta, h1, h2, h3]
    try dsimp only
    repeat' split
    all_goals simp_all
  · intro c e p s h1 h2 h3
    simp only [Store.updateContextFromSessionMeta, h1, h2, h3]
    try dsimp only
    repeat' split
    all_goals simp_all
  · intro c e p s h1 h2 h3
    simp only [Store.updateContextFromTurnContext, h1, h2, h3]
    try dsimp only
    repeat' split
    all_goals simp_all
  · intro c e hc
    unfold Store.updateContextFromTurnContext
    try dsimp only
    repeat' split
    all_goals simp_all
  · intro c e
    unfold Store.updateContextFromTurnContext
    try dsimp only
    repeat' split
    all_goals simp_all
  · intro c e h
    unfold Store.updateContextFromSessionMeta
    try dsimp only
    repeat' split
    all_goals simp_all
  · intro c e
    unfold Store.updateContextFromTurnContext
    try dsimp only
    repeat' split
    all_goals simp_all

/-- C4 witness: a session-metadata record with a non-empty cwd overwrites
an already non-empty accumulated cwd. -/
theorem c4_witness :
    (Json.obj (JsonO.ofList [("type", .str "session_meta"),
        ("payload", Json.obj (JsonO.ofList [("cwd", .str "/new")]))])).getField "type"
      = some (.str "session_meta") ∧
    (Store.updateContextFromSessionMeta ctxA
      (Json.obj (JsonO.ofList [("type", .str "session_meta"),
        ("payload", Json.obj (JsonO.ofList [("cwd", .str "/new")]))]))).cwd = "/new" :=
  ⟨by decide,
   c4_session_context_accumulation.1 ctxA _
     (Json.obj (JsonO.ofList [("cwd", .str "/new")])) "/new"
     (by decide) (by decide) (by decide)⟩

/-- Shape of a synthesized tool-invocation entry: appended at the end, an
assistant entry whose single content item is the given `tool_use` item,
carrying the meta flag. -/
theorem pushAssistantToolUse_shape (gen : Nat → String) (now : String)
    (ctx : Store.CodexSessionContext) (ts : Option Json) (entries : List Json)
    (toolId toolName : String) (input : Json) (n : Nat) :
    ∃ m n', Store.pushAssistantToolUse gen now ctx ts entries toolId toolName input n
        = (entries ++ [m], n')
      ∧ entryFirstContentItem m = some (Json.obj (JsonO.ofList
          [("type", .str "tool_use"), ("id", .str toolId),
           ("name", .str toolName), ("input", input)]))
      ∧ m.getField "type" = some (.str "assistant")
      ∧ m.getField "isMeta" = some (.bool true) := by
  refine ⟨_, _, rfl, ?_, ?_, ?_⟩ <;> cases ctx.agentId <;> rfl

/-- Shape of a synthesized tool-result entry: appended at the end, a user
entry whose single content item is the given `tool_result` item, carrying
the meta flag. -/
theorem pushUserToolResult_shape (gen : Nat → String) (now : String)
    (ctx : Store.CodexSessionContext) (ts : Option Json) (entries : List Json)
    (toolUseId output : String) (isError : Bool) (n : Nat) :
    ∃ m n', Store.pushUserToolResult gen now ctx ts entries toolUseId output isError n
        = (entries ++ [m], n')
      ∧ entryFirstContentItem m = some (Json.obj (JsonO.ofList
          ([("type", .str "tool_result"), ("tool_use_id", .str toolUseId),
            ("content", .str output)]
           ++ (if isError then [("is_error", .bool true)] else []))))
      ∧ m.getField "type" = some (.str "user")
      ∧ m.getField "isMeta" = some (.bool true) := by
  refine ⟨_, _, rfl, ?_, ?_, ?_⟩ <;> cases ctx.agentId <;> cases isError <;> rfl

/-- Shape of a converted plain user text entry: emitted only when the text
trims non-empty, and flagged meta exactly when the meta-content heuristic
matches the trimmed text. -/
theorem pushUserText_shape (gen : Nat → String) (now : String)
    (ctx : Store.CodexSessionContext) (ts : Option Json) (entries : List Json)
    (text : String) (n : Nat) (h : jsTrim text ≠ "") :
    ∃ m n', Store.pushUserText gen now ctx ts entries text n = (entries ++ [m], n')
      ∧ m.getField "type" = some (.str "user")
      ∧ m.getField "isMeta" =
          (if Store.isMetaConversationText (jsTrim text) then some (.bool true) else none) := by
  unfold Store.pushUserText
  rw [if_neg h]
  refine ⟨_, _, rfl, ?_, ?_⟩ <;>
  · dsimp only [Store.createUserMessage, Store.createBaseEntry]
    cases hm : Store.isMetaConversationText (jsTrim text) <;> cases ctx.agentId <;>
      simp only [hm] <;> rfl

/-- C10: every tool-invocation entry and every tool-result entry the
converter synthesizes carries `isMeta = true`, whereas a plain user text
entry carries the flag exactly when the meta-content heuristic matches its
trimmed text (and otherwise carries no flag at all). -/
theorem c10_meta_flags (gen : Nat → String) (now : String)
    (ctx : Store.CodexSessionContext) (ts : Option Json) (entries : List Json) :
    (∀ (toolId toolName : String) (input : Json) (n : Nat),
      ∃ m n', Store.pushAssistantToolUse gen now ctx ts entries toolId toolName input n
          = (entries ++ [m], n') ∧ m.getField "isMeta" = some (.bool true))
    ∧ (∀ (toolUseId output : String) (isError : Bool) (n : Nat),
      ∃ m n', Store.pushUserToolResult gen now ctx ts entries toolUseId output isError n
          = (entries ++ [m], n') ∧ m.getField "isMeta" = some (.bool true))
    ∧ (∀ (text : String) (n : Nat), jsTrim text ≠ "" →
      ∃ m n', Store.pushUserText gen now ctx ts entries text n = (entries ++ [m], n')
        ∧ m.getField "isMeta" =
            (if Store.isMetaConversationText (jsTrim text) then some (.bool true) else none)) := by
  refine ⟨?_, ?_, ?_⟩
  · intro toolId toolName input n
    obtain ⟨m, n', he, _, _, hm⟩ := pushAssistantToolUse_shape gen now ctx ts entries toolId toolName input n
    exact ⟨m, n', he, hm⟩
  · intro toolUseId output isError n
    obtain ⟨m, n', he, _, _, hm⟩ := pushUserToolResult_shape gen now ctx ts entries toolUseId output isError n
    exact ⟨m, n', he, hm⟩
  · intro text n h
    obtain ⟨m, n', he, _, hm⟩ := pushUserText_shape gen now ctx ts entries text n h
    exact ⟨m, n', he, hm⟩

/-- C10 witness: a non-meta user text yields no flag, and a synthesized
tool invocation yields the flag, at concrete inputs. -/
theorem c10_witness :
    (jsTrim "fix the bug" ≠ "") ∧
    (∃ m n', Store.pushUserText genU "t0" ctxA none [] "fix the bug" 0 = ([] ++ [m], n')
      ∧ m.getField "isMeta" =
          (if Store.isMetaConversationText (jsTrim "fix the bug") then some (.bool true) else none)) ∧
    (∃ m n', Store.pushAssistantToolUse genU "t0" ctxA none [] "tid" "Bash" (Json.obj .nil) 0
      = ([] ++ [m], n') ∧ m.getField "isMeta" = some (.bool true)) :=
  ⟨by decide,
   (c10_meta_flags genU "t0" ctxA none []).2.2 "fix the bug" 0 (by decide),
   (c10_meta_flags genU "t0" ctxA none []).1 "tid" "Bash" (Json.obj .nil) 0⟩

/-- C6 counterexample: the claim states that every foreign web-search-call
record yields an assistant tool-invocation *and* an immediately following
user tool-result; a `web_search_call` record with no string `status`
yields only the invocation entry (one entry, not two). -/
theorem c6_no_status_no_result :
    (Store.convertStep parseNone genU "t0" false stMid webSearchNoStatus).entries.length = 1 ∧
    ¬ (Store.convertStep parseNone genU "t0" false stMid webSearchNoStatus).entries.length = 2 := by
  decide

/-- C6 (amended): for every foreign web-search-call record carrying a
string status, the converter appends an assistant tool-invocation entry
and an immediately following user tool-result entry carrying
`status: <status>`, both synthesized and sharing the one freshly generated
invocation id (the uuid drawn at this record); without a string status
only the invocation is appended. -/
theorem c6_web_search_synthesis (parse : String → Option Json) (gen : Nat → String)
    (now : String) (hasResp : Bool) (st : Store.ConvState) (rec p : Json) (status : String)
    (h1 : rec.getField "type" = some (.str "response_item"))
    (h2 : asRecO (rec.getField "payload") = some p)
    (h3 : p.getField "type" = some (.str "web_search_call"))
    (h4 : p.getField "status" = some (.str status)) :
    ∃ a u n,
      (Store.convertStep parse gen now hasResp st rec).entries = st.entries ++ [a, u]
      ∧ (Store.convertStep parse gen now hasResp st rec).next = n
      ∧ a.getField "type" = some (.str "assistant")
      ∧ (entryFirstContentItem a).bind (fun i => i.getStr "id") = some (gen st.next)
      ∧ (entryFirstContentItem a).bind (fun i => i.getStr "name") = some "web_search"
      ∧ u.getField "type" = some (.str "user")
      ∧ (entryFirstContentItem u).bind (fun i => i.getStr "tool_use_id") = some (gen st.next)
      ∧ (entryFirstContentItem u).bind (fun i => i.getStr "content") =
          some ("status: " ++ status) := by
  obtain ⟨a, n1, ha, hai, hat, _⟩ :=
    pushAssistantToolUse_shape gen now
      (Store.updateContextFromTurnContext (Store.updateContextFromSessionMeta st.context rec) rec)
      (rec.getField "timestamp") st.entries (gen st.next) "web_search"
      ((asRecO (p.getField "action")).getD (Json.obj .nil)) (st.next + 1)
  obtain ⟨u, n2, hu, hui, hut, _⟩ :=
    pushUserToolResult_shape gen now
      (Store.updateContextFromTurnContext (Store.updateContextFromSessionMeta st.context rec) rec)
      (rec.getField "timestamp") (st.entries ++ [a]) (gen st.next)
      ("status: " ++ status) false n1
  have hstep : Store.convertStep parse gen now hasResp st rec =
      { context := Store.updateContextFromTurnContext
          (Store.updateContextFromSessionMeta st.context rec) rec,
        entries := (st.entries ++ [a]) ++ [u], next := n2 } := by
    unfold Store.convertStep
    rw [h1, h2]
    rw [if_pos rfl]
    dsimp only
    rw [h3, h4]
    rw [if_neg (by decide), if_neg (by decide), if_neg (by decide),
        if_neg (by decide), if_pos rfl]
    dsimp only
    rw [ha]
    dsimp only
    rw [hu]
  refine ⟨a, u, n2, ?_, ?_, hat, ?_, ?_, hut, ?_, ?_⟩
  · rw [hstep]; simp [List.append_assoc]
  · rw [hstep]
  · rw [hai]; rfl
  · rw [hai]; rfl
  · rw [hui]; rfl
  · rw [hui]; rfl

/-- C6 witness: a concrete web-search-call record with status `completed`
yields the invocation/result pair sharing the fresh id. -/
theorem c6_witness :
    (Json.obj (JsonO.ofList [("type", .str "web_search_call"),
      ("status", .str "completed")])).getField "status" = some (.str "completed") ∧
    ∃ a u n,
      (Store.convertStep parseNone genU "t0" false stMid webSearchWithStatus).entries =
        stMid.entries ++ [a, u]
      ∧ (Store.convertStep parseNone genU "t0" false stMid webSearchWithStatus).next = n
      ∧ a.getField "type" = some (.str "assistant")
      ∧ (entryFirstContentItem a).bind (fun i => i.getStr "id") = some (genU stMid.next)
      ∧ (entryFirstContentItem a).bind (fun i => i.getStr "name") = some "web_search"
      ∧ u.getField "type" = some (.str "user")
      ∧ (entryFirstContentItem u).bind (fun i => i.getStr "tool_use_id") = some (genU stMid.next)
      ∧ (entryFirstContentItem u).bind (fun i => i.getStr "content") =
          some ("status: " ++ "completed") :=
  ⟨by decide,
   c6_web_search_synthesis parseNone genU "t0" false stMid webSearchWithStatus
     (Json.obj (JsonO.ofList [("type", .str "web_search_call"), ("status", .str "completed")]))
     "completed" (by decide) (by decide) (by decide) (by decide)⟩

/-- Size bound for the files of one Claude project folder. -/
theorem mem_claudeFolderFiles_size (profile : Option Store.ConversationProfile)
    (fn : String) (fp : FPath) (ch : FSEntries) :
    ∀ r ∈ Store.claudeFolderFiles profile fn fp ch, Store.MIN_FILE_SIZE ≤ r.2.2.size := by
  induction ch using FSEntries.indOn with
  | nil => intro r hr; simp [Store.claudeFolderFiles] at hr
  | cons name node rest ih =>
    intro r hr
    simp only [Store.claudeFolderFiles, List.mem_append] at hr
    rcases hr with hr | hr
    · cases node with
      | file size mtime content =>
        dsimp only at hr
        by_cases hc : Store.jsonlName name = true ∧ ¬ size < Store.MIN_FILE_SIZE
        · rw [if_pos hc] at hr
          rw [List.mem_singleton] at hr
          subst hr
          exact Nat.le_of_not_lt hc.2
        · rw [if_neg hc] at hr
          simp at hr
      | dir ch2 => simp at hr
    · exact ih r hr

/-- Size bound for a whole Claude root. -/
theorem mem_claudeRootRecords_size (profile : Option Store.ConversationProfile)
    (pp : FPath) (entries : FSEntries) :
    ∀ r ∈ Store.claudeRootRecords profile pp entries, Store.MIN_FILE_SIZE ≤ r.2.2.size := by
  induction entries using FSEntries.indOn with
  | nil => intro r hr; simp [Store.claudeRootRecords] at hr
  | cons name node rest ih =>
    intro r hr
    simp only [Store.claudeRootRecords, List.mem_append] at hr
    rcases hr with hr | hr
    · cases node with
      | file size mtime content => simp at hr
      | dir ch2 => exact mem_claudeFolderFiles_size profile name (pp ++ [name]) ch2 r hr
    · exact ih r hr

/-- Size bound for one Codex file record. -/
theorem codexFileRecord_size (parse : String → Option Json) (fs : FSNode)
    (profile : Option Store.ConversationProfile) (p : FPath) (r : Store.ScanRecord)
    (h : Store.codexFileRecord parse fs profile p = some r) :
    Store.MIN_FILE_SIZE ≤ r.2.2.size := by
  unfold Store.codexFileRecord at h
  split at h
  · exact absurd h (by simp)
  · rename_i size mtime heq
    split at h
    · exact absurd h (by simp)
    · rename_i hlt
      rw [Option.some.injEq] at h
      subst h
      exact Nat.le_of_not_lt hlt

/-- C9 counterexample: the claim fixes the minimum threshold at 1 KiB for
every scanner, but the extension-side fileSystem module's `MIN_FILE_SIZE`
is 5 KiB: a file of exactly 1024 bytes is listed by the conversationStore
scanner yet excluded from every listing of the extension scanner. -/
theorem c9_extension_threshold_not_1KiB :
    Ext.MIN_FILE_SIZE ≠ 1 * 1024
    ∧ (Store.findFolder (Store.scanForConversations parseNone homeH fsBoundary) "proj").map
        (fun n => n.files.map (fun f => f.size)) = some [1024]
    ∧ Ext.scanForConversations homeH fsBoundary = [] := by
  decide

/-- C9 (amended): each scanner excludes files below its module's
`MIN_FILE_SIZE` and includes qualifying files of exactly `MIN_FILE_SIZE`
bytes; the threshold is 1 KiB in the conversationStore module and 5 KiB in
the extension fileSystem module. -/
theorem c9_size_gating :
    Store.MIN_FILE_SIZE = 1 * 1024
    ∧ Ext.MIN_FILE_SIZE = 5 * 1024
    ∧ (∀ (parse : String → Option Json) (home : FPath) (fs : FSNode)
        (r : Store.ScanRecord), r ∈ Store.syncScanList parse home fs →
        Store.MIN_FILE_SIZE ≤ r.2.2.size)
    ∧ (∀ (fn : String) (fp : FPath) (ch : FSEntries) (f : Store.ConversationFile),
        f ∈ Ext.folderFiles fn fp ch → Ext.MIN_FILE_SIZE ≤ f.size)
    ∧ (Store.findFolder (Store.scanForConversations parseNone homeH fsBoundary) "proj").map
        (fun n => n.files.map (fun f => f.size)) = some [Store.MIN_FILE_SIZE]
    ∧ (Store.findFolder (Ext.scanForConversations homeH fsBoundaryExt) "proj").map
        (fun n => n.files.map (fun f => f.size)) = some [Ext.MIN_FILE_SIZE] := by
  refine ⟨rfl, rfl, ?_, ?_, by decide, by decide⟩
  · intro parse home fs r hr
    simp only [Store.syncScanList, List.mem_append] at hr
    rcases hr with hr | hr
    · simp only [Store.claudeScanList, List.mem_flatMap] at hr
      obtain ⟨pp, _, hr⟩ := hr
      split at hr
      · exact mem_claudeRootRecords_size _ pp _ r hr
      · simp at hr
    · simp only [Store.codexScanListSync, List.mem_flatMap] at hr
      obtain ⟨root, _, hr⟩ := hr
      split at hr
      · simp only [List.mem_filterMap] at hr
        obtain ⟨p, _, hrec⟩ := hr
        exact codexFileRecord_size parse fs _ p r hrec
      · simp at hr
  · intro fn fp ch f hf
    induction ch using FSEntries.indOn with
    | nil => simp [Ext.folderFiles] at hf
    | cons name node rest ih =>
      simp only [Ext.folderFiles, List.mem_append] at hf
      rcases hf with hf | hf
      · cases node with
        | file size mtime content =>
          dsimp only at hf
          by_cases hc : Store.jsonlName name = true ∧ ¬ size < Ext.MIN_FILE_SIZE
          · rw [if_pos hc] at hf
            rw [List.mem_singleton] at hf
            subst hf
            exact Nat.le_of_not_lt hc.2
          · rw [if_neg hc] at hf
            simp at hf
        | dir ch2 => simp at hf
      · exact ih hf

/-- C9 witness: the concrete 1024-byte record is discovered and satisfies
the bound, at the boundary exactly. -/
theorem c9_witness :
    recBoundary ∈ Store.syncScanList parseNone homeH fsBoundary ∧
    Store.MIN_FILE_SIZE ≤ recBoundary.2.2.size :=
  ⟨by decide, c9_size_gating.2.2.1 parseNone homeH fsBoundary recBoundary (by decide)⟩

/-- The codex-candidate loop returns the first accepted cleaned candidate. -/
theorem firstCodexAccepted_eq (cs : List String) :
    Store.firstCodexAccepted cs = (cs.filterMap Store.acceptCleaned).head? := by
  induction cs with
  | nil => rfl
  | cons c rest ih =>
    unfold Store.firstCodexAccepted
    rw [List.filterMap_cons]
    cases h : Store.acceptCleaned c with
    | none => simpa using ih
    | some s => simp

/-- The per-line candidate logic returns the first accepted candidate of
the line, Claude candidate first, then codex candidates in order. -/
theorem lineSummary_eq (r : Json) :
    Store.lineSummary r =
      ((match Store.extractClaudeSummaryCandidate r with
        | some c => if c ≠ "" then [c] else []
        | none => []).filterMap Store.acceptCleaned
       ++ (Store.extractCodexSummaryCandidates r).filterMap Store.acceptCleaned).head? := by
  unfold Store.lineSummary
  cases hc : Store.extractClaudeSummaryCandidate r with
  | none => simp [firstCodexAccepted_eq]
  | some c =>
    by_cases he : c = ""
    · simp [he, firstCodexAccepted_eq]
    · simp only [he, ne_eq, not_false_eq_true, if_pos, if_true]
      rw [List.filterMap_cons]
      cases ha : Store.acceptCleaned c with
      | none => simp [ha, firstCodexAccepted_eq]
      | some s => simp [ha]

/-- The line loop of `extractSummary` returns the head of the accepted
candidate stream. -/
theorem extractSummaryLines_eq (parse : String → Option Json) (lines : List String) :
    Store.extractSummaryLines parse lines =
      ((lines.flatMap fun line =>
        if jsTrim line = "" then []
        else
          match parse line with
          | some r =>
            if r.isRec then
              (match Store.extractClaudeSummaryCandidate r with
               | some c => if c ≠ "" then [c] else []
               | none => []).filterMap Store.acceptCleaned
              ++ (Store.extractCodexSummaryCandidates r).filterMap Store.acceptCleaned
            else []
          | none => []).head?).getD "" := by
  induction lines with
  | nil => rfl
  | cons line rest ih =>
    rw [List.flatMap_cons]
    simp only [Store.extractSummaryLines]
    by_cases hb : jsTrim line = ""
    · simp only [hb, ite_true, if_pos, List.nil_append]
      exact ih
    · simp only [if_neg hb]
      cases hp : parse line with
      | none => simp only [hp, List.nil_append]; exact ih
      | some r =>
        simp only [hp]
        cases hrec : r.isRec with
        | false => simp only [hrec, Bool.false_eq_true, if_false, List.nil_append]; exact ih
        | true =>
          simp only [hrec, if_true]
          have hls := lineSummary_eq r
          cases hlist : ((match Store.extractClaudeSummaryCandidate r with
              | some c => if c ≠ "" then [c] else []
              | none => []).filterMap Store.acceptCleaned
             ++ (Store.extractCodexSummaryCandidates r).filterMap Store.acceptCleaned) with
          | nil =>
            rw [hlist] at hls
            simp only [List.head?_nil] at hls
            simp only [hls, List.nil_append]
            exact ih
          | cons x xs =>
            rw [hlist] at hls
            simp only [List.head?_cons] at hls
            simp only [hls, List.cons_append, List.head?_cons, Option.getD_some]

/-- C8: the preview extractor scans lines in order, skipping blank and
unparseable lines; it returns the first candidate user-message text that,
after collapsing whitespace, is non-empty and does not match the
meta-content heuristic, truncated to 100 characters (the truncation is
part of `acceptCleaned`); extraction stops at that first success, and when
no line yields an accepted candidate it returns the empty string. -/
theorem c8_preview_extraction (parse : String → Option Json) (content : String) :
    Store.extractSummary parse content =
      ((Store.acceptedCandidates parse content).head?).getD "" := by
  unfold Store.extractSummary Store.acceptedCandidates
  exact extractSummaryLines_eq parse (jsSplitNl content)

/-- Lookup after a set: the set key answers the new value. -/
theorem jsMapGet_set_self {β : Type} (m : List (String × β)) (k : String) (v : β) :
    jsMapGet (jsMapSet m k v) k = some v := by
  induction m with
  | nil => simp [jsMapSet, jsMapGet]
  | cons e rest ih =>
    by_cases h : e.1 = k
    · simp [jsMapSet, jsMapGet, h]
    · simp [jsMapSet, jsMapGet, h, ih]

/-- Lookup after a set at a different key is unchanged. -/
theorem jsMapGet_set_ne {β : Type} (m : List (String × β)) (k k' : String) (v : β)
    (h : k ≠ k') : jsMapGet (jsMapSet m k v) k' = jsMapGet m k' := by
  induction m with
  | nil => simp [jsMapSet, jsMapGet, h]
  | cons e rest ih =>
    by_cases he : e.1 = k
    · simp [jsMapSet, jsMapGet, he, h]
    · simp only [jsMapSet, if_neg he]
      by_cases he' : e.1 = k'
      · simp [jsMapGet, he']
      · simp [jsMapGet, he', ih]

/-- Folding keyed sets over a list: the final binding of a key is the value
of the last element with that key, else the original binding. -/
theorem jsMapGet_foldSetBy {α β : Type} (key : α → String) (val : α → β) :
    ∀ (xs : List α) (m : List (String × β)) (k : String),
      jsMapGet (xs.foldl (fun m x => jsMapSet m (key x) (val x)) m) k =
        match (xs.filter (fun x => decide (key x = k))).getLast? with
        | some x => some (val x)
        | none => jsMapGet m k := by
  intro xs
  induction xs with
  | nil => intro m k; rfl
  | cons x rest ih =>
    intro m k
    rw [List.foldl_cons, List.filter_cons]
    by_cases hk : key x = k
    · simp only [hk, decide_eq_true_eq, ite_true, if_pos, decide_True]
      rw [ih]
      cases hl : (rest.filter (fun x => decide (key x = k))).getLast? with
      | some y => simp [List.getLast?_cons, hl]
      | none =>
        have : rest.filter (fun x => decide (key x = k)) = [] :=
          List.getLast?_eq_none_iff.mp hl
        simp [this, hk, jsMapGet_set_self]
    · simp only [decide_eq_true_eq, hk, ite_false, if_neg, not_false_eq_true]
      rw [ih]
      cases hl : (rest.filter (fun x => decide (key x = k))).getLast? with
      | some y => simp [hl]
      | none => simp [hl, jsMapGet_set_ne _ _ _ _ hk]

/-- Pass one of the correlator is the keyed fold over the declarative
invocation-pair stream. -/
theorem collectToolNames_eq (convs : List Viewer.ParsedLine) :
    ExportUtils.collectToolNames convs =
      (ExportUtils.invocationPairs convs).foldl (fun m p => jsMapSet m p.1 p.2) [] := by
  suffices h : ∀ (m : List (String × String)),
      convs.foldl
        (fun m conv =>
          match conv with
          | .entry (.assistant _ msg) =>
            (ExportUtils.toolUsePairs msg.content).foldl (fun m p => jsMapSet m p.1 p.2) m
          | _ => m) m
      = (ExportUtils.invocationPairs convs).foldl (fun m p => jsMapSet m p.1 p.2) m by
    exact h []
  induction convs with
  | nil => intro m; rfl
  | cons conv rest ih =>
    intro m
    rw [List.foldl_cons]
    unfold ExportUtils.invocationPairs
    rw [List.flatMap_cons, List.foldl_append]
    cases conv with
    | xError line => exact ih m
    | entry c =>
      cases c with
      | assistant base msg => exact ih _
      | user base msg => exact ih m
      | summary s l => exact ih m
      | system b ct t l => exact ih m
      | fileHistorySnapshot a b c => exact ih m
      | queueOperation a b c => exact ih m

/-- Pass two of the correlator is the keyed fold over the declarative
tool-result stream (with the pass-one map fixed). -/
theorem buildToolResultMap_eq (convs : List Viewer.ParsedLine) :
    ExportUtils.buildToolResultMap convs =
      (ExportUtils.allToolResults convs).foldl
        (fun m r =>
          jsMapSet m r.tool_use_id
            { toolName :=
                match jsMapGet (ExportUtils.collectToolNames convs) r.tool_use_id with
                | some n => if n = "" then "unknown" else n
                | none => "unknown",
              result := r })
        [] := by
  unfold ExportUtils.buildToolResultMap
  suffices h : ∀ (m : List (String × ExportUtils.ToolResultInfo)) (cs : List Viewer.ParsedLine),
      cs.foldl
        (fun m conv =>
          match conv with
          | .entry (.user _ msg) =>
            (ExportUtils.toolResultItems msg).foldl
              (fun m r =>
                jsMapSet m r.tool_use_id
                  { toolName :=
                      match jsMapGet (ExportUtils.collectToolNames convs) r.tool_use_id with
                      | some n => if n = "" then "unknown" else n
                      | none => "unknown",
                    result := r })
              m
          | _ => m) m
      = (ExportUtils.allToolResults cs).foldl
          (fun m r =>
            jsMapSet m r.tool_use_id
              { toolName :=
                  match jsMapGet (ExportUtils.collectToolNames convs) r.tool_use_id with
                  | some n => if n = "" then "unknown" else n
                  | none => "unknown",
                result := r })
          m by
    exact h [] convs
  intro m cs
  induction cs generalizing m with
  | nil => rfl
  | cons conv rest ih =>
    rw [List.foldl_cons]
    unfold ExportUtils.allToolResults
    rw [List.flatMap_cons, List.foldl_append]
    cases conv with
    | xError line => exact ih m
    | entry c =>
      cases c with
      | assistant base msg => exact ih m
      | user base msg => exact ih _
      | summary s l => exact ih m
      | system b ct t l => exact ih m
      | fileHistorySnapshot a b c => exact ih m
      | queueOperation a b c => exact ih m

/-- The last element of a list, when present, is a member. -/
theorem getLastOpt_mem {α : Type} {l : List α} {a : α} (h : l.getLast? = some a) :
    a ∈ l := by
  obtain ⟨hne, rfl⟩ := List.mem_getLast?_eq_getLast (x := a) (by rw [Option.mem_def, h])
  exact List.getLast_mem hne

/-- `getLast?` commutes with `map`. -/
theorem getLastOpt_map {α β : Type} (f : α → β) (l : List α) :
    (l.map f).getLast? = (l.getLast?).map f := by
  induction l with
  | nil => rfl
  | cons x xs ih =>
    cases xs with
    | nil => rfl
    | cons y ys =>
      rw [List.map_cons, List.map_cons, List.getLast?_cons_cons, List.getLast?_cons_cons,
        ← List.map_cons]
      exact ih

/-- C3 counterexample: the claim says the map attaches the name recorded by
an invocation with the same id whenever one exists, but an invocation that
records the empty string as its name resolves to the sentinel `"unknown"`
(`toolNames.get(id) || "unknown"` uses JS truthiness). -/
theorem c3_empty_name_resolves_unknown :
    ExportUtils.invocationNamesIn convsEmptyName "tool_1" = [""]
    ∧ (jsMapGet (ExportUtils.buildToolResultMap convsEmptyName) "tool_1").map
        ExportUtils.ToolResultInfo.toolName = some "unknown"
    ∧ ("unknown" : String) ≠ "" := by
  decide

/-- C3 (amended): for every ordered entry sequence and invocation id, the
correlator maps the id to the last tool-result item of any user entry
referencing it (no tool result is dropped), with `toolName` the last name
recorded by an assistant entry's tool-invocation item with that id —
except that a missing invocation *or* an empty recorded name resolves to
the sentinel `"unknown"` (JS truthiness); ids with no tool result are
absent from the map. -/
theorem c3_tool_correlation (convs : List Viewer.ParsedLine) (id : String) :
    jsMapGet (ExportUtils.buildToolResultMap convs) id =
      (ExportUtils.toolResultsIn convs id).getLast?.map
        (fun r =>
          { toolName := ExportUtils.resolveName ((ExportUtils.invocationNamesIn convs id).getLast?),
            result := r }) := by
  rw [buildToolResultMap_eq]
  rw [jsMapGet_foldSetBy (fun r => r.tool_use_id)
    (fun r =>
      ({ toolName :=
          match jsMapGet (ExportUtils.collectToolNames convs) r.tool_use_id with
          | some n => if n = "" then "unknown" else n
          | none => "unknown",
         result := r } : ExportUtils.ToolResultInfo))
    (ExportUtils.allToolResults convs) [] id]
  cases hlast : (ExportUtils.toolResultsIn convs id).getLast? with
  | none =>
    unfold ExportUtils.toolResultsIn at hlast
    rw [hlast]
    rfl
  | some r =>
    have hmem : r ∈ ExportUtils.toolResultsIn convs id := getLastOpt_mem hlast
    have hid : r.tool_use_id = id := by
      have h2 := (List.mem_filter.mp hmem).2
      exact of_decide_eq_true h2
    unfold ExportUtils.toolResultsIn at hlast
    rw [hlast]
    simp only [Option.map_some]
    rw [hid]
    rw [collectToolNames_eq]
    rw [jsMapGet_foldSetBy (fun p => p.1) (fun p => p.2)
      (ExportUtils.invocationPairs convs) [] id]
    unfold ExportUtils.invocationNamesIn
    cases hp : ((ExportUtils.invocationPairs convs).filter
        (fun p => decide (p.1 = id))).getLast? with
    | none =>
      rw [getLastOpt_map, hp]
      rfl
    | some p =>
      rw [getLastOpt_map, hp]
      rfl

/-- C3 witness: a tool-result referencing an unseen id `tool_9` correlates
to the sentinel name `unknown` with its payload, and the result is not
dropped. -/
theorem c3_witness :
    (ExportUtils.toolResultsIn
        [Viewer.ParsedLine.entry (.user base0
          { content := Sum.inr
              [.toolResult { tool_use_id := "tool_9", content := .str "payload", is_error := none }] })]
        "tool_9").getLast?
      = some { tool_use_id := "tool_9", content := .str "payload", is_error := none } ∧
    jsMapGet (ExportUtils.buildToolResultMap
        [Viewer.ParsedLine.entry (.user base0
          { content := Sum.inr
              [.toolResult { tool_use_id := "tool_9", content := .str "payload", is_error := none }] })])
        "tool_9"
      = some { toolName := "unknown",
               result := { tool_use_id := "tool_9", content := .str "payload", is_error := none } } := by
  constructor
  · decide
  · rw [c3_tool_correlation]
    decide

/-- Every filesystem node has positive size. -/
theorem FSNode.nsize_pos (n : FSNode) : 1 ≤ n.nsize := by
  cases n with
  | file size mtime content => exact Nat.le_refl 1
  | dir ch => exact Nat.le_add_right 1 ch.nsize |>.trans (by rw [FSNode.nsize]) |>.trans (Nat.le_refl _)

/-- The queued subdirectories of a listing weigh no more than the listing. -/
theorem queueSizes_subdirsOf_le (p : FPath) (ch : FSEntries) :
    Store.queueSizes (Store.subdirsOf p ch) ≤ ch.nsize := by
  induction ch using FSEntries.indOn with
  | nil => simp [Store.subdirsOf, Store.queueSizes, FSEntries.nsize]
  | cons name node rest ih =>
    cases node with
    | file size mtime content =>
      simp only [Store.subdirsOf, List.nil_append, FSEntries.nsize]
      exact ih.trans (Nat.le_add_left _ _)
    | dir ch2 =>
      simp only [Store.subdirsOf, List.cons_append, List.nil_append, FSEntries.nsize,
        Store.queueSizes, List.map_cons, List.sum_cons]
      have := ih
      unfold Store.queueSizes at this
      omega

/-- The depth-first collection over a listing, as a multiset: the listing's
own `.jsonl` files plus the collections of its subdirectories. -/
theorem collectSyncEntries_ms (p : FPath) (ch : FSEntries) :
    (↑(Store.collectSyncEntries p ch) : Multiset FPath) =
      (↑(Store.jsonlFilesOf p ch) : Multiset FPath) +
      ((Store.subdirsOf p ch).map
        (fun pn => (↑(Store.collectSyncNode pn.1 pn.2) : Multiset FPath))).sum := by
  induction ch using FSEntries.indOn with
  | nil => simp [Store.collectSyncEntries, Store.jsonlFilesOf, Store.subdirsOf]
  | cons name node rest ih =>
    cases node with
    | file size mtime content =>
      simp only [Store.collectSyncEntries, Store.jsonlFilesOf, Store.subdirsOf,
        List.nil_append, ← Multiset.coe_add, ih]
      abel
    | dir ch2 =>
      simp only [Store.collectSyncEntries, Store.jsonlFilesOf, Store.subdirsOf,
        List.nil_append, List.cons_append, List.map_cons, List.sum_cons,
        ← Multiset.coe_add, ih]
      abel

/-- With sufficient fuel, the queue-based collection gathers, as a
multiset, the pending files plus the depth-first collections of every
queued node. -/
theorem collectAsyncLoop_ms :
    ∀ (gas : Nat) (q : List (FPath × FSNode)) (files : List FPath),
      Store.queueSizes q ≤ gas →
      (↑(Store.collectAsyncLoop gas q files) : Multiset FPath) =
        (↑files : Multiset FPath) +
        (q.map (fun pn => (↑(Store.collectSyncNode pn.1 pn.2) : Multiset FPath))).sum := by
  intro gas
  induction gas with
  | zero =>
    intro q files hq
    cases q with
    | nil => simp [Store.collectAsyncLoop]
    | cons a as =>
      exfalso
      have h1 := FSNode.nsize_pos a.2
      unfold Store.queueSizes at hq
      simp only [List.map_cons, List.sum_cons] at hq
      omega
  | succ gas ih =>
    intro q files hq
    cases q with
    | nil => simp [Store.collectAsyncLoop]
    | cons a as =>
      have hne : (a :: as) ≠ ([] : List (FPath × FSNode)) := List.cons_ne_nil a as
      have hdecomp : (a :: as).dropLast ++ [(a :: as).getLast hne] = a :: as :=
        List.dropLast_append_getLast hne
      have hsizes : Store.queueSizes (a :: as) =
          Store.queueSizes ((a :: as).dropLast) + ((a :: as).getLast hne).2.nsize := by
        conv_lhs => rw [← hdecomp]
        unfold Store.queueSizes
        rw [List.map_append, List.sum_append]
        simp
      have hsum : ((a :: as).map
            (fun pn => (↑(Store.collectSyncNode pn.1 pn.2) : Multiset FPath))).sum =
          (((a :: as).dropLast).map
            (fun pn => (↑(Store.collectSyncNode pn.1 pn.2) : Multiset FPath))).sum +
          (↑(Store.collectSyncNode ((a :: as).getLast hne).1 ((a :: as).getLast hne).2) :
            Multiset FPath) := by
        conv_lhs => rw [← hdecomp]
        rw [List.map_append, List.sum_append]
        simp
      rw [Store.collectAsyncLoop]
      cases hn : ((a :: as).getLast hne).2 with
      | file size mtime content =>
        rw [ih _ _ (by rw [hsizes, hn] at hq; simp [FSNode.nsize] at hq; omega)]
        rw [hsum, hn]
        simp [Store.collectSyncNode]
      | dir ch =>
        have hbound : Store.queueSizes ((a :: as).dropLast ++
            Store.subdirsOf ((a :: as).getLast hne).1 ch) ≤ gas := by
          have h1 : Store.queueSizes ((a :: as).dropLast ++
              Store.subdirsOf ((a :: as).getLast hne).1 ch) =
              Store.queueSizes ((a :: as).dropLast) +
              Store.queueSizes (Store.subdirsOf ((a :: as).getLast hne).1 ch) := by
            unfold Store.queueSizes
            rw [List.map_append, List.sum_append]
          have h2 := queueSizes_subdirsOf_le ((a :: as).getLast hne).1 ch
          rw [hsizes, hn] at hq
          simp only [FSNode.nsize] at hq
          omega
        rw [ih _ _ hbound]
        rw [hsum, hn]
        rw [List.map_append, List.sum_append]
        have hnode : (↑(Store.collectSyncNode ((a :: as).getLast hne).1 (.dir ch)) :
            Multiset FPath) =
            (↑(Store.jsonlFilesOf ((a :: as).getLast hne).1 ch) : Multiset FPath) +
            ((Store.subdirsOf ((a :: as).getLast hne).1 ch).map
              (fun pn => (↑(Store.collectSyncNode pn.1 pn.2) : Multiset FPath))).sum := by
          rw [show Store.collectSyncNode ((a :: as).getLast hne).1 (.dir ch) =
            Store.collectSyncEntries ((a :: as).getLast hne).1 ch from rfl]
          exact collectSyncEntries_ms _ ch
        rw [hnode, ← Multiset.coe_add]
        abel

/-- The queue-based and depth-first collections list the same files (as a
permutation; the traversal orders differ). -/
theorem collectAsync_perm (fs : FSNode) (rootDir : FPath) :
    (Store.collectJsonlFilesAsync fs rootDir).Perm (Store.collectJsonlFilesSync fs rootDir) := by
  unfold Store.collectJsonlFilesAsync Store.collectJsonlFilesSync
  cases hl : fs.lookup rootDir with
  | none => exact List.Perm.refl _
  | some n =>
    rw [← Multiset.coe_eq_coe]
    rw [collectAsyncLoop_ms n.nsize [(rootDir, n)] [] (by simp [Store.queueSizes])]
    simp

/-- A flatMap of pointwise-permuted images is a permutation. -/
theorem flatMap_perm_of_perm {α β : Type} (roots : List α) (g₁ g₂ : α → List β)
    (h : ∀ root, (g₁ root).Perm (g₂ root)) :
    (roots.flatMap g₁).Perm (roots.flatMap g₂) := by
  induction roots with
  | nil => exact List.Perm.refl _
  | cons root rest ih =>
    rw [List.flatMap_cons, List.flatMap_cons]
    exact (h root).append ih

/-- The asynchronous Codex discovery lists the same files as the
synchronous one, up to order. -/
theorem codexScanList_perm (parse : String → Option Json) (home : FPath) (fs : FSNode) :
    (Store.codexScanListAsync parse home fs).Perm (Store.codexScanListSync parse home fs) := by
  unfold Store.codexScanListAsync Store.codexScanListSync
  refine flatMap_perm_of_perm _ _ _ (fun root => ?_)
  by_cases h : pathExists fs root
  · simp only [h, if_pos, ite_true]
    exact (collectAsync_perm fs root).filterMap _
  · simp only [h, ite_false, if_neg, not_false_iff]
    exact List.Perm.refl _

/-- The asynchronous scan discovers the same records as the synchronous
scan, up to order. -/
theorem asyncScanList_perm (parse : String → Option Json) (home : FPath) (fs : FSNode) :
    (Store.asyncScanList parse home fs).Perm (Store.syncScanList parse home fs) :=
  List.Perm.append_left _ (codexScanList_perm parse home fs)

/-- A successful folder lookup is a membership. -/
theorem findFolder_mem (m : Store.FoldersMap) (k : String) (node : Store.FolderNode)
    (h : Store.findFolder m k = some node) : (k, node) ∈ m := by
  induction m with
  | nil => simp [Store.findFolder] at h
  | cons e rest ih =>
    unfold Store.findFolder at h
    by_cases he : e.1 = k
    · rw [if_pos he] at h
      cases h
      have hk : (k, e.2) = e := by rw [← he]
      rw [hk]
      exact List.mem_cons_self _ _
    · rw [if_neg he] at h
      exact List.mem_cons_of_mem _ (ih h)

/-- Members of an updated map are old members or the updated first entry. -/
theorem updateFolder_mem (m : Store.FoldersMap) (k0 : String)
    (g : Store.FolderNode → Store.FolderNode) (e : String × Store.FolderNode)
    (h : e ∈ Store.updateFolder m k0 g) :
    e ∈ m ∨ ∃ e0 ∈ m, e = (e0.1, g e0.2) := by
  induction m with
  | nil => simp [Store.updateFolder] at h
  | cons e1 rest ih =>
    unfold Store.updateFolder at h
    by_cases he : e1.1 = k0
    · rw [if_pos he] at h
      rcases List.mem_cons.mp h with h | h
      · exact Or.inr ⟨e1, List.mem_cons_self _ _, h⟩
      · exact Or.inl (List.mem_cons_of_mem _ h)
    · rw [if_neg he] at h
      rcases List.mem_cons.mp h with h | h
      · exact Or.inl (h ▸ List.mem_cons_self _ _)
      · rcases ih h with h | ⟨e0, he0, hg⟩
        · exact Or.inl (List.mem_cons_of_mem _ h)
        · exact Or.inr ⟨e0, List.mem_cons_of_mem _ he0, hg⟩

/-- Lookup in an updated map. -/
theorem findFolder_updateFolder (m : Store.FoldersMap) (k0 k : String)
    (g : Store.FolderNode → Store.FolderNode) :
    Store.findFolder (Store.updateFolder m k0 g) k =
      if k0 = k then (Store.findFolder m k).map g else Store.findFolder m k := by
  induction m with
  | nil => simp [Store.updateFolder, Store.findFolder]
  | cons e rest ih =>
    unfold Store.updateFolder
    by_cases he : e.1 = k0
    · rw [if_pos he]
      by_cases hk : e.1 = k
      · have hk0k : k0 = k := he.symm.trans hk
        simp only [Store.findFolder, if_pos hk, if_pos hk0k]
        rfl
      · have hk0 : ¬ k0 = k := fun h => hk (he.trans h)
        simp only [Store.findFolder, if_neg hk, if_neg hk0]
    · rw [if_neg he]
      simp only [Store.findFolder]
      by_cases hk : e.1 = k
      · have hk0 : ¬ k0 = k := fun h => he (hk.trans h.symm)
        simp only [if_pos hk, if_neg hk0]
      · simp only [if_neg hk, ih]

/-- Lookup in a map extended with one trailing entry. -/
theorem findFolder_append_single (m : Store.FoldersMap) (k0 k : String)
    (node : Store.FolderNode) :
    Store.findFolder (m ++ [(k0, node)]) k =
      match Store.findFolder m k with
      | some n => some n
      | none => if k0 = k then some node else none := by
  induction m with
  | nil => simp [Store.findFolder]
  | cons e rest ih =>
    rw [List.cons_append]
    unfold Store.findFolder
    by_cases hk : e.1 = k
    · rw [if_pos hk, if_pos hk]
    · rw [if_neg hk, if_neg hk, ih]

/-- Every file listed after one `addConversationFile` is the added file or
a file already listed. -/
theorem addFile_files_sub (m : Store.FoldersMap) (k0 fp : String)
    (file : Store.ConversationFile) (e : String × Store.FolderNode)
    (he : e ∈ Store.addConversationFile m k0 fp file) (f : Store.ConversationFile)
    (hf : f ∈ e.2.files) :
    f = file ∨ ∃ e0 ∈ m, f ∈ e0.2.files := by
  unfold Store.addConversationFile at he
  cases hfind : Store.findFolder m k0 with
  | some node =>
    rw [hfind] at he
    dsimp only at he
    by_cases hdup : node.files.any (fun existing => decide (existing.path = file.path))
    · rw [if_pos hdup] at he
      exact Or.inr ⟨e, he, hf⟩
    · rw [if_neg hdup] at he
      rcases updateFolder_mem m k0 _ e he with h | ⟨e0, he0, hg⟩
      · exact Or.inr ⟨e, h, hf⟩
      · rw [hg] at hf
        simp only at hf
        rcases List.mem_append.mp hf with h | h
        · exact Or.inr ⟨e0, he0, h⟩
        · rw [List.mem_singleton] at h
          exact Or.inl h
  | none =>
    rw [hfind] at he
    dsimp only at he
    rcases List.mem_append.mp he with h | h
    · exact Or.inr ⟨e, h, hf⟩
    · rw [List.mem_singleton] at h
      rw [h] at hf
      simp only at hf
      rw [List.mem_singleton] at hf
      exact Or.inl hf

/-- Folding discovered records into the folder mapping: when the records
carry pairwise-distinct absolute paths (so the de-duplication check never
fires) and are disjoint from the accumulator, each group's file listing is
the accumulated listing plus the records filtered to that group, in
discovery order. -/
theorem foldScan_files (rs : List Store.ScanRecord) :
    ∀ (m : Store.FoldersMap) (k : String),
      (∀ r ∈ rs, ∀ e ∈ m, ∀ f ∈ e.2.files, f.path ≠ r.2.2.path) →
      ((rs.map (fun r => r.2.2.path)).Nodup) →
      (Store.findFolder (Store.foldScan m rs) k).map (fun n => n.files) =
        (match Store.findFolder m k with
         | some node =>
           some (node.files ++ (rs.filter (fun r => decide (r.1 = k))).map (fun r => r.2.2))
         | none =>
           if (rs.filter (fun r => decide (r.1 = k))).isEmpty then none
           else some ((rs.filter (fun r => decide (r.1 = k))).map (fun r => r.2.2))) := by
  induction rs with
  | nil =>
    intro m k _ _
    cases h : Store.findFolder m k <;> simp [Store.foldScan, h]
  | cons r rs ih =>
    intro m k hdisj hnd
    have hnd' := (List.nodup_cons.mp hnd).2
    have hhead := (List.nodup_cons.mp hnd).1
    have hdisj' : ∀ r' ∈ rs, ∀ e ∈ Store.addConversationFile m r.1 r.2.1 r.2.2,
        ∀ f ∈ e.2.files, f.path ≠ r'.2.2.path := by
      intro r' hr' e he f hf
      rcases addFile_files_sub m r.1 r.2.1 r.2.2 e he f hf with hfe | ⟨e0, he0, hf0⟩
      · rw [hfe]
        intro hcontra
        apply hhead
        show r.2.2.path ∈ List.map (fun r => r.2.2.path) rs
        rw [hcontra]
        exact List.mem_map_of_mem _ hr' 
      · exact hdisj r' (List.mem_cons_of_mem _ hr') e0 he0 f hf0
    unfold Store.foldScan
    rw [List.foldl_cons]
    rw [show (rs.foldl (fun m r => Store.addConversationFile m r.1 r.2.1 r.2.2)
        (Store.addConversationFile m r.1 r.2.1 r.2.2)) =
      Store.foldScan (Store.addConversationFile m r.1 r.2.1 r.2.2) rs from rfl]
    rw [ih (Store.addConversationFile m r.1 r.2.1 r.2.2) k hdisj' hnd']
    rw [List.filter_cons]
    by_cases hk : r.1 = k
    · rw [if_pos (show decide (r.1 = k) = true from decide_eq_true hk)]
      cases hfind : Store.findFolder m r.1 with
      | some node =>
        have hdup : (node.files.any fun existing => decide (existing.path = r.2.2.path)) = false := by
          rw [List.any_eq_false]
          intro f hf
          simp only [decide_eq_true_eq]
          exact hdisj r (List.mem_cons_self _ _) (r.1, node)
            (findFolder_mem m r.1 node hfind) f hf
        have hm' : Store.findFolder (Store.addConversationFile m r.1 r.2.1 r.2.2) k =
            some { node with files := node.files ++ [r.2.2] } := by
          unfold Store.addConversationFile
          rw [hfind]
          dsimp only
          rw [if_neg (by rw [hdup]; exact Bool.false_ne_true)]
          rw [findFolder_updateFolder, if_pos hk, ← hk, hfind]
          rfl
        have hfindk : Store.findFolder m k = some node := by rw [← hk]; exact hfind
        rw [hm', hfindk]
        simp [List.append_assoc, List.map_cons, List.singleton_append]
      | none =>
        have hm' : Store.findFolder (Store.addConversationFile m r.1 r.2.1 r.2.2) k =
            some { name := r.1, path := r.2.1, files := [r.2.2] } := by
          unfold Store.addConversationFile
          rw [hfind]
          dsimp only
          rw [findFolder_append_single, ← hk, hfind]
          rw [if_pos rfl]
        have hfindk : Store.findFolder m k = none := by rw [← hk]; exact hfind
        rw [hm', hfindk]
        simp
    · rw [if_neg (show ¬ decide (r.1 = k) = true by simp [hk])]
      have hm' : Store.findFolder (Store.addConversationFile m r.1 r.2.1 r.2.2) k =
          Store.findFolder m k := by
        unfold Store.addConversationFile
        cases hfind : Store.findFolder m r.1 with
        | some node =>
          dsimp only
          by_cases hdup : (node.files.any fun existing => decide (existing.path = r.2.2.path)) = true
          · rw [if_pos hdup]
          · rw [if_neg hdup, findFolder_updateFolder, if_neg hk]
        | none =>
          dsimp only
          rw [findFolder_append_single]
          cases hfk : Store.findFolder m k with
          | some n => rfl
          | none => rw [if_neg hk]
      rw [hm']

/-- Lookup commutes with the per-folder sort. -/
theorem findFolder_sort (m : Store.FoldersMap) (k : String) :
    Store.findFolder (Store.sortFolderFilesByDate m) k =
      (Store.findFolder m k).map
        (fun n => { n with files := List.insertionSort Store.newerFirst n.files }) := by
  induction m with
  | nil => rfl
  | cons e rest ih =>
    unfold Store.sortFolderFilesByDate
    rw [List.map_cons]
    unfold Store.findFolder
    by_cases hk : e.1 = k
    · simp only [if_pos hk]
      rfl
    · simp only [if_neg hk]
      exact ih

/-- The stable newest-first sort of two permuted listings with
pairwise-distinct modification times is the same list. -/
theorem insertionSort_eq_of_perm (l₁ l₂ : List Store.ConversationFile)
    (hperm : l₁.Perm l₂)
    (hnd : (l₁.map (fun f => f.lastModified)).Nodup) :
    List.insertionSort Store.newerFirst l₁ = List.insertionSort Store.newerFirst l₂ := by
  letI : IsTotal Store.ConversationFile Store.newerFirst :=
    ⟨fun a b => Int.le_total b.lastModified a.lastModified⟩
  letI : IsTrans Store.ConversationFile Store.newerFirst :=
    ⟨fun a b c hab hbc => le_trans hbc hab⟩
  have hs₁ := List.sorted_insertionSort Store.newerFirst l₁
  have hs₂ := List.sorted_insertionSort Store.newerFirst l₂
  have hp₁ : (List.insertionSort Store.newerFirst l₁).Perm l₁ := List.perm_insertionSort _ _
  have hp₂ : (List.insertionSort Store.newerFirst l₂).Perm l₂ := List.perm_insertionSort _ _
  have hps : (List.insertionSort Store.newerFirst l₁).Perm (List.insertionSort Store.newerFirst l₂) :=
    (hp₁.trans hperm).trans hp₂.symm
  have hnd₁ : ((List.insertionSort Store.newerFirst l₁).map (fun f => f.lastModified)).Nodup :=
    ((hp₁.map (fun f => f.lastModified)).symm).nodup hnd
  have hnd₂ : ((List.insertionSort Store.newerFirst l₂).map (fun f => f.lastModified)).Nodup :=
    (hps.map (fun f => f.lastModified)).nodup hnd₁
  have key : ∀ (s : List Store.ConversationFile), List.Sorted Store.newerFirst s →
      ((s.map (fun f => f.lastModified)).Nodup) →
      List.Sorted (fun a b => Store.newerFirst a b ∧ a.lastModified ≠ b.lastModified) s := by
    intro s hs hn
    have hpw : s.Pairwise (fun a b => a.lastModified ≠ b.lastModified) :=
      List.pairwise_map.mp hn
    exact List.Pairwise.and hs hpw
  letI : IsAntisymm Store.ConversationFile
      (fun a b => Store.newerFirst a b ∧ a.lastModified ≠ b.lastModified) :=
    ⟨fun a b hab hba => absurd (le_antisymm hba.1 hab.1) hab.2⟩
  exact List.eq_of_perm_of_sorted hps (key _ hs₁ hnd₁) (key _ hs₂ hnd₂)

/-- C5 (amended): when all discovered files have pairwise-distinct paths
and pairwise-distinct modification times, the blocking and non-blocking
scans produce the same group-to-file-listing mapping: for every group key,
the same member files in the same order after the newest-first sort. (On
ties of modification time the relative file order can differ, see the
counterexample; the group node's recorded path for unknown-cwd groups can
likewise depend on traversal order, so the comparison is on listings.) -/
theorem c5_sync_async_scan_agree (parse : String → Option Json) (home : FPath) (fs : FSNode)
    (hpaths : ((Store.syncScanList parse home fs).map (fun r => r.2.2.path)).Nodup)
    (hmts : ((Store.syncScanList parse home fs).map (fun r => r.2.2.lastModified)).Nodup)
    (k : String) :
    (Store.findFolder (Store.scanForConversations parse home fs) k).map (fun n => n.files) =
    (Store.findFolder (Store.scanForConversationsAsync parse home fs) k).map (fun n => n.files) := by
  have hperm := asyncScanList_perm parse home fs
  have hpathsA : ((Store.asyncScanList parse home fs).map (fun r => r.2.2.path)).Nodup :=
    ((hperm.map (fun r => r.2.2.path)).symm).nodup hpaths
  have hS := foldScan_files (Store.syncScanList parse home fs) [] k
    (by intro r _ e he _ _; simp at he) hpaths
  have hA := foldScan_files (Store.asyncScanList parse home fs) [] k
    (by intro r _ e he _ _; simp at he) hpathsA
  simp only [Store.findFolder] at hS hA
  unfold Store.scanForConversations Store.scanForConversationsAsync
  rw [findFolder_sort, findFolder_sort, Option.map_map, Option.map_map]
  rw [show ((fun n : Store.FolderNode => n.files) ∘
      (fun n => { n with files := List.insertionSort Store.newerFirst n.files })) =
      ((fun fl => List.insertionSort Store.newerFirst fl) ∘
        (fun n : Store.FolderNode => n.files)) from rfl]
  rw [← Option.map_map, ← Option.map_map, hS, hA]
  have hFperm : ((Store.asyncScanList parse home fs).filter (fun r => decide (r.1 = k))).Perm
      ((Store.syncScanList parse home fs).filter (fun r => decide (r.1 = k))) :=
    hperm.filter _
  by_cases hemp : ((Store.syncScanList parse home fs).filter (fun r => decide (r.1 = k))).isEmpty
  · have hempA : ((Store.asyncScanList parse home fs).filter
        (fun r => decide (r.1 = k))).isEmpty := by
      rw [List.isEmpty_iff] at hemp ⊢
      exact (hemp ▸ hFperm).eq_nil
    rw [if_pos hemp, if_pos hempA]
  · have hempA : ¬ ((Store.asyncScanList parse home fs).filter
        (fun r => decide (r.1 = k))).isEmpty := by
      rw [List.isEmpty_iff] at hemp ⊢
      intro h
      exact hemp (h ▸ hFperm.symm).eq_nil
    rw [if_neg hemp, if_neg hempA]
    show some (List.insertionSort Store.newerFirst
        (List.map (fun r => r.2.2)
          (List.filter (fun r => decide (r.1 = k)) (Store.syncScanList parse home fs)))) =
      some (List.insertionSort Store.newerFirst
        (List.map (fun r => r.2.2)
          (List.filter (fun r => decide (r.1 = k)) (Store.asyncScanList parse home fs))))
    congr 1
    apply insertionSort_eq_of_perm
    · exact ((hFperm.map (fun r => r.2.2)).symm)
    · rw [List.map_map]
      exact (((List.filter_sublist _).map _)).nodup hmts

/-- C5 counterexample: the claim asserts identical output for every
filesystem state, but when two files in one group share a modification
time the stable newest-first sort preserves the traversal order, and the
blocking depth-first walk and the non-blocking queue-based walk visit
sibling directories in different orders: on `fsTie` the blocking scan
lists `a.jsonl` before `b.jsonl`, the non-blocking scan the reverse. -/
theorem c5_tie_order_differs :
    (Store.findFolder (Store.scanForConversations parseNone homeH fsTie)
        Store.CODEX_UNKNOWN_FOLDER).map (fun n => n.files.map (fun f => f.name))
      = some ["a.jsonl", "b.jsonl"]
    ∧ (Store.findFolder (Store.scanForConversationsAsync parseNone homeH fsTie)
        Store.CODEX_UNKNOWN_FOLDER).map (fun n => n.files.map (fun f => f.name))
      = some ["b.jsonl", "a.jsonl"]
    ∧ (["a.jsonl", "b.jsonl"] : List String) ≠ ["b.jsonl", "a.jsonl"] := by
  decide

/-- C5 witness: with distinct modification times the two scans agree at
the concrete filesystem `fsDistinct`. -/
theorem c5_witness :
    ((Store.syncScanList parseNone homeH fsDistinct).map (fun r => r.2.2.path)).Nodup ∧
    ((Store.syncScanList parseNone homeH fsDistinct).map (fun r => r.2.2.lastModified)).Nodup ∧
    (Store.findFolder (Store.scanForConversations parseNone homeH fsDistinct)
        Store.CODEX_UNKNOWN_FOLDER).map (fun n => n.files) =
    (Store.findFolder (Store.scanForConversationsAsync parseNone homeH fsDistinct)
        Store.CODEX_UNKNOWN_FOLDER).map (fun n => n.files) :=
  ⟨by decide, by decide,
   c5_sync_async_scan_agree parseNone homeH fsDistinct (by decide) (by decide)
     Store.CODEX_UNKNOWN_FOLDER⟩
